import Mathlib

/-!
Verification development for the ClubApp resume-analysis core
(`src/analysis_manager.py`, `src/llm_analyzer.py`).

The Python code is shallowly embedded:
* JSON values (`json.loads` output) are modeled by the inductive `JVal`,
  with an executable decoder `jsonLoads` covering the integer fragment of
  JSON (objects, arrays, strings with the standard escapes, integer
  numerals, booleans, null); floating-point numerals are outside the
  model and are treated as decode failures.
* Python `datetime` values are modeled as integer timestamps in seconds.
* The MongoDB collection is modeled as a list of `AnalysisDoc` documents;
  `update_one(..., upsert=True)` becomes first-match replacement or
  append, `delete_many` becomes a filter.
* Fallible effects (driver errors, the LLM call outcome after the retry
  decorator) are passed in explicitly through a `World` record; user
  visible `st.error` reports accumulate in an error list.
-/

namespace ClubApp

/-- Model of a decoded JSON value (the result of `json.loads`). -/
inductive JVal where
  | null : JVal
  | bool : Bool → JVal
  | num : Int → JVal
  | str : String → JVal
  | arr : List JVal → JVal
  | obj : List (String × JVal) → JVal

/-- JSON whitespace characters (RFC 8259). -/
def isJsonWs (c : Char) : Bool :=
  c = ' ' || c = '\t' || c = '\n' || c = '\r'

/-- Skip leading JSON whitespace. -/
def skipWs (cs : List Char) : List Char := cs.dropWhile isJsonWs

/-- Value of a hexadecimal digit. -/
def hexVal (c : Char) : Option Nat :=
  if '0' ≤ c ∧ c ≤ '9' then some (c.toNat - 48)
  else if 'a' ≤ c ∧ c ≤ 'f' then some (c.toNat - 87)
  else if 'A' ≤ c ∧ c ≤ 'F' then some (c.toNat - 55)
  else none

/-- Simple JSON string escapes. -/
def escChar (c : Char) : Option Char :=
  if c = '"' then some '"'
  else if c = '\\' then some '\\'
  else if c = '/' then some '/'
  else if c = 'n' then some '\n'
  else if c = 't' then some '\t'
  else if c = 'r' then some '\r'
  else if c = 'b' then some (Char.ofNat 8)
  else if c = 'f' then some (Char.ofNat 12)
  else none

/-- Parse the body of a JSON string (after the opening quote), returning
the decoded content and the remaining input after the closing quote.
Unicode escapes are decoded for non-surrogate code points; surrogate
pairs are outside the model. -/
def pStr : List Char → Option (List Char × List Char)
  | [] => none
  | '"' :: rest => some ([], rest)
  | '\\' :: 'u' :: h1 :: h2 :: h3 :: h4 :: rest =>
    match hexVal h1, hexVal h2, hexVal h3, hexVal h4 with
    | some a, some b, some c, some d =>
      let n := ((a * 16 + b) * 16 + c) * 16 + d
      if n < 55296 ∨ 57344 ≤ n then
        (pStr rest).map (fun p => (Char.ofNat n :: p.1, p.2))
      else none
    | _, _, _, _ => none
  | '\\' :: e :: rest =>
    match escChar e with
    | some ec => (pStr rest).map (fun p => (ec :: p.1, p.2))
    | none => none
  | c :: rest =>
    if c.toNat < 32 then none
    else (pStr rest).map (fun p => (c :: p.1, p.2))

/-- Numeric value of a digit list. -/
def natOfDigits (ds : List Char) : Nat :=
  ds.foldl (fun n c => n * 10 + (c.toNat - 48)) 0

/-- Parse the digit run of a JSON integer numeral (after an optional
sign), rejecting leading zeros and numerals continued by `.`, `e` or
`E` (floating-point literals are outside the model). -/
def pNumCore (neg : Bool) (cs1 : List Char) : Option (Int × List Char) :=
  let ds := cs1.takeWhile Char.isDigit
  let rest := cs1.dropWhile Char.isDigit
  if ds = [] then none
  else if 1 < ds.length ∧ ds.head? = some '0' then none
  else if rest.head? = some '.' ∨ rest.head? = some 'e' ∨ rest.head? = some 'E' then none
  else some (if neg then -(natOfDigits ds : Int) else (natOfDigits ds : Int), rest)

/-- Parse a JSON integer numeral with its optional leading minus sign. -/
def pNum (cs : List Char) : Option (Int × List Char) :=
  if cs.head? = some '-' then pNumCore true cs.tail else pNumCore false cs

/-- Parse a fixed literal (`true`, `false`, `null`). -/
def pLit (lit : List Char) (v : JVal) (cs : List Char) : Option (JVal × List Char) :=
  if lit.isPrefixOf cs then some (v, cs.drop lit.length) else none

mutual

/-- Parse one JSON value; `fuel` bounds recursion depth. -/
def pValue : Nat → List Char → Option (JVal × List Char)
  | 0, _ => none
  | Nat.succ f, cs =>
    match cs with
    | [] => none
    | c :: rest =>
      if c = '"' then (pStr rest).map (fun p => (JVal.str (String.mk p.1), p.2))
      else if c = '[' then
        if (skipWs rest).head? = some ']' then some (JVal.arr [], (skipWs rest).tail)
        else (pElems f (skipWs rest)).map (fun p => (JVal.arr p.1, p.2))
      else if c = '{' then
        if (skipWs rest).head? = some '}' then some (JVal.obj [], (skipWs rest).tail)
        else (pMembers f (skipWs rest)).map (fun p => (JVal.obj p.1, p.2))
      else if c = 't' then pLit ['t', 'r', 'u', 'e'] (JVal.bool true) cs
      else if c = 'f' then pLit ['f', 'a', 'l', 's', 'e'] (JVal.bool false) cs
      else if c = 'n' then pLit ['n', 'u', 'l', 'l'] JVal.null cs
      else if c = '-' ∨ c.isDigit then (pNum cs).map (fun p => (JVal.num p.1, p.2))
      else none

/-- Parse the elements of a non-empty JSON array (after `[` and leading
whitespace), through the closing `]`. -/
def pElems : Nat → List Char → Option (List JVal × List Char)
  | 0, _ => none
  | Nat.succ f, cs =>
    match pValue f cs with
    | none => none
    | some (v, rest) =>
      if (skipWs rest).head? = some ',' then
        (pElems f (skipWs (skipWs rest).tail)).map (fun p => (v :: p.1, p.2))
      else if (skipWs rest).head? = some ']' then some ([v], (skipWs rest).tail)
      else none

/-- Parse the members of a non-empty JSON object (after `\x7b` and leading
whitespace), through the closing `\x7d`. -/
def pMembers : Nat → List Char → Option (List (String × JVal) × List Char)
  | 0, _ => none
  | Nat.succ f, cs =>
    match cs with
    | [] => none
    | c :: rest =>
      if c = '"' then
        match pStr rest with
        | none => none
        | some (k, r1) =>
          if (skipWs r1).head? = some ':' then
            match pValue f (skipWs (skipWs r1).tail) with
            | none => none
            | some (v, r3) =>
              if (skipWs r3).head? = some ',' then
                (pMembers f (skipWs (skipWs r3).tail)).map
                  (fun p => ((String.mk k, v) :: p.1, p.2))
              else if (skipWs r3).head? = some '}' then
                some ([(String.mk k, v)], (skipWs r3).tail)
              else none
          else none
      else none

end

/-- Number of non-whitespace characters; the recursion fuel budget of
the decoder.  Every recursive call of the value/element/member parsers
is paid for by a distinct non-whitespace character of the input, so this
budget (plus one for the top-level call) never runs out on an input the
grammar accepts, and it is invariant under adding surrounding
whitespace. -/
def countNonWs (cs : List Char) : Nat :=
  (cs.filter (fun c => !isJsonWs c)).length

/-- Model of Python `json.loads` on a character list: decode one value,
allowing surrounding whitespace, rejecting trailing garbage. -/
def jsonLoadsL (cs : List Char) : Option JVal :=
  let t := skipWs cs
  match pValue (countNonWs t + 1) t with
  | some (v, rest) => if skipWs rest = [] then some v else none
  | none => none

/-- Model of Python `json.loads` on a string. -/
def jsonLoads (s : String) : Option JVal := jsonLoadsL s.data

/-- Python (ASCII) whitespace, as stripped by `str.strip()`. -/
def isPyWs (c : Char) : Bool :=
  c = ' ' || c = '\t' || c = '\n' || c = '\r' || c = Char.ofNat 11 || c = Char.ofNat 12

/-- Model of Python `str.strip()` on a character list. -/
def pyStripL (cs : List Char) : List Char :=
  ((cs.dropWhile isPyWs).reverse.dropWhile isPyWs).reverse

/-- Model of Python `str.strip()`. -/
def pyStrip (s : String) : String := String.mk (pyStripL s.data)

/-- Model of Python `dict.get` on a decoded JSON object: with duplicate
keys, `json.loads` keeps the last binding, so lookup is last-wins. -/
def jget (kvs : List (String × JVal)) (k : String) : Option JVal :=
  kvs.foldl (fun acc p => if p.1 = k then some p.2 else acc) none

/-- Model of Python `int(s)` on a string: surrounding whitespace and an
optional sign are accepted ahead of a non-empty digit run (digit-group
underscores are outside the model). -/
def pyIntOfStr (s : String) : Option Int :=
  let t := pyStripL s.data
  let neg : Bool := match t with | '-' :: _ => true | _ => false
  let t1 := match t with
    | '-' :: r => r
    | '+' :: r => r
    | _ => t
  if t1 ≠ [] ∧ t1.all Char.isDigit then
    some (if neg then -(natOfDigits t1 : Int) else (natOfDigits t1 : Int))
  else none

/-- Model of Python `int(x)` on a decoded JSON value: integers pass
through, booleans become 0/1, numeric strings are parsed, and every
other value raises (`none`). -/
def pyIntOf : JVal → Option Int
  | JVal.num n => some n
  | JVal.bool b => some (if b then 1 else 0)
  | JVal.str s => pyIntOfStr s
  | _ => none

/-- `AnalysisResult` (`llm_analyzer.py`, lines 17-26).  The Python
dataclass does not enforce field types, and `parse_llm_response` stores
whatever JSON value a field held, so the five list fields and the
summary are modeled as raw `JVal`; `match_score` always flows through
`int(...)` in every constructor in the repository, hence `Int`. -/
structure AnalysisResult where
  networking_strategy : JVal
  campus_resources : JVal
  application_timeline : JVal
  preparation_steps : JVal
  improvements : JVal
  match_score : Int
  strategy_summary : JVal

/-- Build the JSON array of strings a well-formed field holds. -/
def strList (l : List String) : JVal := JVal.arr (l.map JVal.str)

/-- Fallback result returned on a JSON decode failure
(`llm_analyzer.py`, lines 186-194). -/
def jsonFallbackResult : AnalysisResult :=
  ⟨strList ["Unable to parse strategy - please try again"],
   strList ["Analysis parsing failed"],
   strList ["Please retry the analysis"],
   strList ["Try again with a different approach"],
   strList ["Analysis parsing failed"],
   0,
   JVal.str "Analysis parsing failed due to JSON format issues"⟩

/-- Fallback result returned when building the result raises outside
JSON decoding (`llm_analyzer.py`, lines 197-205); `msg` models the
Python exception text interpolated into the summary. -/
def errorFallbackResult (msg : String) : AnalysisResult :=
  ⟨strList ["Error in analysis"],
   strList ["Please try again"],
   strList ["Analysis failed"],
   strList ["Retry recommended"],
   strList ["Please try again"],
   0,
   JVal.str ("Error: " ++ msg)⟩

/-- Modeled text of the `AttributeError` raised by `data.get` when the
decoded JSON document is not an object. -/
def attrErrMsg : String := "object has no attribute get"

/-- Modeled text of the `TypeError`/`ValueError` raised by
`int(data.get(\"match_score\", 0))` on a non-convertible value. -/
def intErrMsg : String := "invalid conversion to int"

/-- Markdown fence handling of `parse_llm_response` (`llm_analyzer.py`,
lines 164-169): strip, drop a leading literal <three backticks>json tag,
drop a trailing three-backtick fence. -/
def stripFences (cs : List Char) : List Char :=
  let r1 := pyStripL cs
  let r2 := if "```json".data.isPrefixOf r1 then r1.drop 7 else r1
  if "```".data.isSuffixOf r2 then r2.take (r2.length - 3) else r2

/-- `LLMAnalyzer.parse_llm_response` (`llm_analyzer.py`, lines 161-205),
instrumented with the list of `st.error` messages it emits.  A decode
failure yields `jsonFallbackResult`; a decoded non-object document makes
`data.get` raise, and a non-convertible `match_score` makes `int(...)`
raise, both caught into `errorFallbackResult`; on an object document the
fields default to empty list / 0 / empty string when missing and are
stored unconverted otherwise. -/
def parseLLMResponseE (response : String) : AnalysisResult × List String :=
  let cleaned := stripFences response.data
  match jsonLoadsL cleaned with
  | none => (jsonFallbackResult, ["Failed to parse LLM response as JSON"])
  | some (JVal.obj kvs) =>
    (match pyIntOf ((jget kvs "match_score").getD (JVal.num 0)) with
     | some sc =>
       (⟨(jget kvs "networking_strategy").getD (JVal.arr []),
         (jget kvs "campus_resources").getD (JVal.arr []),
         (jget kvs "application_timeline").getD (JVal.arr []),
         (jget kvs "preparation_steps").getD (JVal.arr []),
         (jget kvs "improvements").getD (JVal.arr []),
         sc,
         (jget kvs "strategy_summary").getD (JVal.str "")⟩, [])
     | none => (errorFallbackResult intErrMsg, ["Unexpected error parsing response"]))
  | some _ => (errorFallbackResult attrErrMsg, ["Unexpected error parsing response"])

/-- `LLMAnalyzer.parse_llm_response`, result component. -/
def parse_llm_response (response : String) : AnalysisResult :=
  (parseLLMResponseE response).1

/-- The ambient effects of one request, passed explicitly: whether each
database driver call raises, whether LLM credentials are present and the
client object initialized, and the outcome of `call_llm` after its
`tenacity` retry decorator gives up (`Except.error`) or succeeds
(`Except.ok` with the raw completion text). -/
structure World where
  getFailure : Bool
  saveFailure : Bool
  deleteFailure : Bool
  apiKeyPresent : Bool
  clientInit : Bool
  llmOutcome : Except String String

/-- `LLMAnalyzer.is_configured` (`llm_analyzer.py`, lines 326-332):
the provider's API key is present and the client initialized. -/
def isConfigured (w : World) : Bool := w.apiKeyPresent && w.clientInit

/-- Fallback result when the client object is missing
(`llm_analyzer.py`, lines 211-219). -/
def clientFallbackResult : AnalysisResult :=
  ⟨strList ["LLM client not available"],
   strList ["Please configure LLM settings"],
   strList ["Check API keys"],
   strList ["Verify LLM configuration"],
   strList ["Please configure LLM settings"],
   0,
   JVal.str "LLM client initialization failed"⟩

/-- Fallback result when the LLM call raises through its retry ceiling
(`llm_analyzer.py`, lines 236-244); `e` models the exception text. -/
def analysisFailedResult (e : String) : AnalysisResult :=
  ⟨strList ["Analysis failed"],
   strList ["Please try again"],
   strList ["Error occurred"],
   strList ["Retry recommended"],
   strList ["Please try again"],
   0,
   JVal.str ("Analysis failed: " ++ e)⟩

/-- `LLMAnalyzer.analyze_resume_for_club` (`llm_analyzer.py`, lines
207-244), instrumented with the number of `call_llm` invocations and
the `st.error` messages emitted.  It never returns an absent value: a
missing client or a failed call each produce a degraded fallback
`AnalysisResult`. -/
def llmAnalyzerAnalyze (w : World) (_resume_text : String)
    (_club_data : List (String × String)) : AnalysisResult × Nat × List String :=
  if !w.clientInit then
    (clientFallbackResult, 0,
     ["LLM client not initialized. Please check your API keys and dependencies."])
  else
    match w.llmOutcome with
    | Except.error e =>
      (analysisFailedResult e, 1, ["LLM API call failed: " ++ e, "Analysis failed: " ++ e])
    | Except.ok text =>
      let pr := parseLLMResponseE text
      (pr.1, 1, pr.2)

/-- One document of the `resume_analyses` collection
(`analysis_manager.py`, lines 39-50). -/
structure AnalysisDoc where
  resume_id : String
  club_name : String
  analysis_timestamp : Int
  networking_strategy : JVal
  campus_resources : JVal
  application_timeline : JVal
  preparation_steps : JVal
  improvements : JVal
  match_score : Int
  strategy_summary : JVal

/-- The document written for `(rid, cname)` at time `t` from result `r`. -/
def mkDoc (rid cname : String) (t : Int) (r : AnalysisResult) : AnalysisDoc :=
  ⟨rid, cname, t, r.networking_strategy, r.campus_resources, r.application_timeline,
   r.preparation_steps, r.improvements, r.match_score, r.strategy_summary⟩

/-- Rebuild the `AnalysisResult` held by a cached document
(`analysis_manager.py`, lines 257-265). -/
def resultOfDoc (d : AnalysisDoc) : AnalysisResult :=
  ⟨d.networking_strategy, d.campus_resources, d.application_timeline,
   d.preparation_steps, d.improvements, d.match_score, d.strategy_summary⟩

/-- The composite-key filter `{resume_id, club_name}` used by the
store's queries. -/
def keyMatch (rid cname : String) (d : AnalysisDoc) : Bool :=
  d.resume_id == rid && d.club_name == cname

/-- `find_one` on the composite key: first document in natural order. -/
def findAnalysis (db : List AnalysisDoc) (rid cname : String) : Option AnalysisDoc :=
  db.find? (keyMatch rid cname)

/-- `update_one({resume_id, club_name}, {$set: doc}, upsert=True)`
(`analysis_manager.py`, lines 53-57): replace every field of the first
matching document, or append a new document. -/
def upsertDoc (db : List AnalysisDoc) (d : AnalysisDoc) : List AnalysisDoc :=
  match db with
  | [] => [d]
  | x :: xs => if keyMatch d.resume_id d.club_name x then d :: xs else x :: upsertDoc xs d

/-- Number of documents stored under a composite key. -/
def countKey (db : List AnalysisDoc) (rid cname : String) : Nat :=
  (db.filter (keyMatch rid cname)).length

/-- `AnalysisManager.cache_duration = timedelta(hours=24)`
(`analysis_manager.py`, line 244), in seconds. -/
def cacheDuration : Int := 86400

/-- `AnalysisDatabase.get_analysis` (`analysis_manager.py`, lines
70-80): point lookup, degrading to `none` plus an error report when the
driver raises. -/
def getAnalysisE (gfail : Bool) (db : List AnalysisDoc) (rid cname : String) :
    Option AnalysisDoc × List String :=
  if gfail then (none, ["Error retrieving analysis"])
  else (findAnalysis db rid cname, [])

/-- `AnalysisDatabase.save_analysis` (`analysis_manager.py`, lines
35-68): upsert under the composite key with a fresh timestamp,
degrading to no write plus an error report when the driver raises. -/
def saveAnalysisE (sfail : Bool) (db : List AnalysisDoc) (now : Int)
    (rid cname : String) (r : AnalysisResult) : List AnalysisDoc × List String :=
  if sfail then (db, ["Error saving analysis"])
  else (upsertDoc db (mkDoc rid cname now r), [])

/-- The club half of the composite key (`analysis_manager.py`, line
248): `club_data.get("Club Name", "Unknown Club")`. -/
def clubNameOf (club_data : List (String × String)) : String :=
  (club_data.lookup "Club Name").getD "Unknown Club"

/-- Everything one `analyze_resume_for_club` call produces: the returned
value, how many times `call_llm` ran, the resulting collection contents,
and the user-visible error reports. -/
structure AnalyzeOutcome where
  result : Option AnalysisResult
  llmCalls : Nat
  db : List AnalysisDoc
  errors : List String

/-- The cache phase of `AnalysisManager.analyze_resume_for_club`
(`analysis_manager.py`, lines 250-265): skipped under `force_refresh`,
otherwise a point lookup whose hit is returned only while younger than
`cache_duration`. -/
def cacheLookupStep (w : World) (now : Int) (db : List AnalysisDoc)
    (rid cname : String) (force : Bool) : Option AnalysisResult × List String :=
  if force then (none, [])
  else
    match getAnalysisE w.getFailure db rid cname with
    | (some c, m) =>
      if now - c.analysis_timestamp < cacheDuration then (some (resultOfDoc c), m)
      else (none, m)
    | (none, m) => (none, m)

/-- `AnalysisManager.analyze_resume_for_club` (`analysis_manager.py`,
lines 246-278): fresh cache hits return immediately with no LLM call
and no write; otherwise an unconfigured analyzer aborts with an absent
result, and a configured one runs the adapter (which always returns a
result, possibly a degraded fallback) and saves it. -/
def analyzeResumeForClub (w : World) (now : Int) (db : List AnalysisDoc)
    (rid resume_text : String) (club_data : List (String × String))
    (force : Bool) : AnalyzeOutcome :=
  let cname := clubNameOf club_data
  match cacheLookupStep w now db rid cname force with
  | (some r, m) => ⟨some r, 0, db, m⟩
  | (none, m) =>
    if !isConfigured w then
      ⟨none, 0, db, m ++ ["LLM is not properly configured. Please check your API keys."]⟩
    else
      let ar := llmAnalyzerAnalyze w resume_text club_data
      let sv := saveAnalysisE w.saveFailure db now rid cname ar.1
      ⟨some ar.1, ar.2.1, sv.1, m ++ ar.2.2 ++ sv.2⟩

/-- Insert into a descending-by-key list, ahead of equal keys (the
element being inserted is earlier in the original input). -/
def insertDescBy {α : Type} (key : α → Int) (x : α) : List α → List α
  | [] => [x]
  | y :: ys => if key y ≤ key x then x :: y :: ys else y :: insertDescBy key x ys

/-- Stable descending sort, the behavior of Python
`sorted(..., key=..., reverse=True)`. -/
def sortDescBy {α : Type} (key : α → Int) : List α → List α
  | [] => []
  | x :: xs => insertDescBy key x (sortDescBy key xs)

/-- `AnalysisDatabase.get_analyses_for_resume` (`analysis_manager.py`,
lines 82-91): all documents of one resume, newest first (the model
fixes the driver's order on timestamp ties as the stable one), `[]`
when the driver raises. -/
def getAnalysesForResume (gfail : Bool) (db : List AnalysisDoc) (rid : String) :
    List AnalysisDoc :=
  if gfail then []
  else sortDescBy (fun d => d.analysis_timestamp) (db.filter (fun d => d.resume_id == rid))

/-- The dictionary returned by
`AnalysisManager.analyze_resume_for_multiple_clubs`, plus the threaded
collection state, LLM call count and error reports. -/
structure ManyOutcome where
  analyses : List (String × AnalysisResult)
  top_match : Option (String × AnalysisResult)
  average_score : ℚ
  total_analyzed : Nat
  db : List AnalysisDoc
  llmCalls : Nat
  errors : List String

/-- The collection loop of `analyze_resume_for_multiple_clubs`
(`analysis_manager.py`, lines 282-289): one sequential `analyze` call
per club record, each seeing the database state the previous one left,
with the `i`-th call's ambient effects supplied by `oracle i`; absent
results are dropped. -/
def analyzeManyAux (oracle : Nat → World) (now : Int) (rid resume_text : String)
    (force : Bool) :
    Nat → List AnalysisDoc → List (List (String × String)) →
    List (String × AnalysisResult) × List AnalysisDoc × Nat × List String
  | _, db, [] => ([], db, 0, [])
  | i, db, club :: rest =>
    let out := analyzeResumeForClub (oracle i) now db rid resume_text club force
    let tl := analyzeManyAux oracle now rid resume_text force (i + 1) out.db rest
    match out.result with
    | some r => ((clubNameOf club, r) :: tl.1, tl.2.1, out.llmCalls + tl.2.2.1, out.errors ++ tl.2.2.2)
    | none => (tl.1, tl.2.1, out.llmCalls + tl.2.2.1, out.errors ++ tl.2.2.2)

/-- The sort key of the comparative ranking. -/
def scoreOf (p : String × AnalysisResult) : Int := p.2.match_score

/-- `AnalysisManager.analyze_resume_for_multiple_clubs`
(`analysis_manager.py`, lines 280-304): collect successes, sort them
descending by match score (Python `sorted` is stable), report the first
as top match and the mean score over successes; an all-failed batch
yields the empty/zero dictionary. -/
def analyzeResumeForMultipleClubs (oracle : Nat → World) (now : Int)
    (db : List AnalysisDoc) (rid resume_text : String)
    (clubs_data : List (List (String × String))) (force : Bool) : ManyOutcome :=
  let step := analyzeManyAux oracle now rid resume_text force 0 db clubs_data
  match step.1 with
  | [] => ⟨[], none, 0, 0, step.2.1, step.2.2.1, step.2.2.2⟩
  | _ :: _ =>
    let results := step.1
    let sorted := sortDescBy scoreOf results
    ⟨sorted, sorted.head?,
     ((results.map (fun p => (p.2.match_score : ℚ))).sum) / (results.length : ℚ),
     results.length, step.2.1, step.2.2.1, step.2.2.2⟩

/-- Python `max(iterable, key=...)` given a first element and the rest:
keeps the earlier element unless a strictly greater key appears, so the
first maximal element wins. -/
def pyMaxBy {α : Type} (key : α → Int) (best : α) : List α → α
  | [] => best
  | x :: xs => pyMaxBy key (if key best < key x then x else best) xs

/-- Python value stored in the summary dictionary: the code mixes ints,
floats (modeled as rationals), strings, a datetime (modeled as an
integer timestamp via `SVal.int`) and `None`. -/
inductive SVal where
  | int : Int → SVal
  | rat : ℚ → SVal
  | str : String → SVal
  | null : SVal
  deriving DecidableEq

/-- Largest `analysis_timestamp` among `a :: rest` (Python `max`). -/
def listMaxTs (a : AnalysisDoc) (rest : List AnalysisDoc) : Int :=
  rest.foldl (fun m d => max m d.analysis_timestamp) a.analysis_timestamp

/-- `AnalysisManager.get_resume_analysis_summary` (`analysis_manager.py`,
lines 306-325), as the association list of dictionary keys it actually
returns: three keys when the resume has no records, five otherwise. -/
def getResumeAnalysisSummary (gfail : Bool) (db : List AnalysisDoc) (rid : String) :
    List (String × SVal) :=
  match getAnalysesForResume gfail db rid with
  | [] => [("count", SVal.int 0), ("average_score", SVal.int 0), ("top_club", SVal.null)]
  | a :: rest =>
    let analyses := a :: rest
    let scores : List Int := analyses.map (fun d => d.match_score)
    let avg : ℚ := ((scores.sum : Int) : ℚ) / (scores.length : ℚ)
    let top := pyMaxBy (fun d => d.match_score) a rest
    [("count", SVal.int (analyses.length : Int)),
     ("average_score", SVal.rat avg),
     ("top_club", SVal.str top.club_name),
     ("top_score", SVal.int top.match_score),
     ("last_updated", SVal.int (listMaxTs a rest))]

/-- `AnalysisManager.cleanup_old_analyses` (`analysis_manager.py`, lines
332-343): `delete_many` of every document strictly older than
`now - days_old` days, returning the deleted count, or `(db, 0)` plus an
error report when the driver raises. -/
def cleanupOldAnalyses (dfail : Bool) (db : List AnalysisDoc) (now days_old : Int) :
    List AnalysisDoc × Nat × List String :=
  let cutoff := now - days_old * 86400
  if dfail then (db, 0, ["Error cleaning up old analyses"])
  else
    ((db.filter (fun d => !decide (d.analysis_timestamp < cutoff))),
     (db.filter (fun d => decide (d.analysis_timestamp < cutoff))).length,
     [])

/-- The collection-of-successes list built by the loop of
`analyze_resume_for_multiple_clubs` (the `results` local). -/
def analyzeManyResults (oracle : Nat → World) (now : Int) (db : List AnalysisDoc)
    (rid resume_text : String) (clubs_data : List (List (String × String)))
    (force : Bool) : List (String × AnalysisResult) :=
  (analyzeManyAux oracle now rid resume_text force 0 db clubs_data).1

/-- The store invariant enforced by the unique index on
`(resume_id, club_name)` (`analysis_manager.py`, line 30). -/
def UniqueKeys (db : List AnalysisDoc) : Prop :=
  ∀ rid cname : String, countKey db rid cname ≤ 1

/-- A character list consisting only of JSON whitespace. -/
def WsOnly (tail : List Char) : Prop := ∀ c ∈ tail, isJsonWs c = true

/-- A parser-fallback field value: a singleton array holding one
non-empty placeholder string. -/
def NonemptyPlaceholder (v : JVal) : Prop :=
  ∃ p : String, v = strList [p] ∧ p ≠ ""

/-- The concrete club list of the spec's ranking example. -/
def c7Clubs : List (List (String × String)) :=
  [[("Club Name", "A")], [("Club Name", "B")], [("Club Name", "C")], [("Club Name", "D")]]

/-- Ambient effects of the spec's ranking example: the four sequential
LLM calls return match scores 70, 95, 95 and 40. -/
def c7Oracle : Nat → World
  | 0 => ⟨false, false, false, true, true, Except.ok "\x7b\"match_score\": 70\x7d"⟩
  | 1 => ⟨false, false, false, true, true, Except.ok "\x7b\"match_score\": 95\x7d"⟩
  | 2 => ⟨false, false, false, true, true, Except.ok "\x7b\"match_score\": 95\x7d"⟩
  | _ => ⟨false, false, false, true, true, Except.ok "\x7b\"match_score\": 40\x7d"⟩

/-! ## Lemmas about the store -/

theorem keyMatch_self (d : AnalysisDoc) : keyMatch d.resume_id d.club_name d = true := by
  simp [keyMatch]

theorem findAnalysis_upsert (db : List AnalysisDoc) (d : AnalysisDoc) :
    findAnalysis (upsertDoc db d) d.resume_id d.club_name = some d := by
  induction db with
  | nil => simp [upsertDoc, findAnalysis, List.find?, keyMatch]
  | cons x xs ih =>
    cases hx : keyMatch d.resume_id d.club_name x with
    | true =>
      simp only [upsertDoc, hx, if_pos]
      simp [findAnalysis, List.find?_cons, keyMatch_self]
    | false =>
      simp only [upsertDoc, hx, Bool.false_eq_true, if_false]
      simpa [findAnalysis, List.find?_cons, hx] using ih

theorem countKey_upsert_self (db : List AnalysisDoc) (d : AnalysisDoc) :
    countKey (upsertDoc db d) d.resume_id d.club_name
      = if countKey db d.resume_id d.club_name = 0 then 1
        else countKey db d.resume_id d.club_name := by
  induction db with
  | nil => simp [upsertDoc, countKey, keyMatch_self]
  | cons x xs ih =>
    cases hx : keyMatch d.resume_id d.club_name x with
    | true =>
      simp [upsertDoc, hx, countKey, List.filter_cons, keyMatch_self]
    | false =>
      simp only [upsertDoc, hx, Bool.false_eq_true, if_false]
      simpa [countKey, List.filter_cons, hx] using ih

theorem keyMatch_eq_of_keyMatch {d x : AnalysisDoc} (rid cname : String)
    (hx : keyMatch d.resume_id d.club_name x = true) :
    keyMatch rid cname x = keyMatch rid cname d := by
  simp only [keyMatch, Bool.and_eq_true, beq_iff_eq] at hx
  simp [keyMatch, hx.1, hx.2]

theorem countKey_upsert_other (db : List AnalysisDoc) (d : AnalysisDoc)
    (rid cname : String) (h : keyMatch rid cname d = false) :
    countKey (upsertDoc db d) rid cname = countKey db rid cname := by
  induction db with
  | nil => simp [upsertDoc, countKey, h]
  | cons x xs ih =>
    cases hx : keyMatch d.resume_id d.club_name x with
    | true =>
      have hx2 : keyMatch rid cname x = false := by
        rw [keyMatch_eq_of_keyMatch rid cname hx]; exact h
      simp [upsertDoc, hx, countKey, List.filter_cons, h, hx2]
    | false =>
      simp only [upsertDoc, hx, Bool.false_eq_true, if_false]
      cases hx2 : keyMatch rid cname x with
      | true => simpa [countKey, List.filter_cons, hx2] using ih
      | false => simpa [countKey, List.filter_cons, hx2] using ih

theorem uniqueKeys_upsert {db : List AnalysisDoc} (d : AnalysisDoc)
    (hu : UniqueKeys db) : UniqueKeys (upsertDoc db d) := by
  intro rid cname
  cases hk : keyMatch rid cname d with
  | true =>
    simp only [keyMatch, Bool.and_eq_true, beq_iff_eq] at hk
    rw [← hk.1, ← hk.2, countKey_upsert_self]
    have := hu d.resume_id d.club_name
    split <;> omega
  | false =>
    rw [countKey_upsert_other db d rid cname hk]
    exact hu rid cname

theorem countKey_upsert_eq_one (db : List AnalysisDoc) (d : AnalysisDoc)
    (hu : countKey db d.resume_id d.club_name ≤ 1) :
    countKey (upsertDoc db d) d.resume_id d.club_name = 1 := by
  rw [countKey_upsert_self]
  split <;> omega

/-- Claim C4 (upsert key uniqueness): saving under a composite key keeps
at most one record per key, and saving twice for the same
`(resume_id, club_name)` with two payloads leaves exactly one record
under that key, holding the second payload's field values and a
timestamp at least the first save's. -/
theorem c4_upsert_key_uniqueness (db : List AnalysisDoc) (rid cname : String)
    (r1 r2 : AnalysisResult) (t1 t2 : Int) (hu : UniqueKeys db) (ht : t1 ≤ t2) :
    countKey (saveAnalysisE false
        (saveAnalysisE false db t1 rid cname r1).1 t2 rid cname r2).1 rid cname = 1 ∧
    findAnalysis (saveAnalysisE false
        (saveAnalysisE false db t1 rid cname r1).1 t2 rid cname r2).1 rid cname
      = some (mkDoc rid cname t2 r2) ∧
    resultOfDoc (mkDoc rid cname t2 r2) = r2 ∧
    t1 ≤ (mkDoc rid cname t2 r2).analysis_timestamp ∧
    UniqueKeys (saveAnalysisE false
        (saveAnalysisE false db t1 rid cname r1).1 t2 rid cname r2).1 := by
  have hd1 : (mkDoc rid cname t1 r1).resume_id = rid := rfl
  have hu1 : UniqueKeys (upsertDoc db (mkDoc rid cname t1 r1)) :=
    uniqueKeys_upsert _ hu
  simp only [saveAnalysisE, Bool.false_eq_true, if_false]
  refine ⟨?_, ?_, rfl, ht, uniqueKeys_upsert _ hu1⟩
  · exact countKey_upsert_eq_one _ (mkDoc rid cname t2 r2) (hu1 rid cname)
  · exact findAnalysis_upsert _ (mkDoc rid cname t2 r2)

/-- Claim C4 witness at a concrete double save. -/
theorem c4_upsert_key_uniqueness_witness :
    countKey (saveAnalysisE false
        (saveAnalysisE false [] 0 "r1" "Launchpad"
          ⟨strList ["a"], strList ["b"], strList ["c"], strList ["d"], strList ["e"],
           88, JVal.str "s1"⟩).1 5 "r1" "Launchpad"
          ⟨strList ["f"], strList ["g"], strList ["h"], strList ["i"], strList ["j"],
           90, JVal.str "s2"⟩).1 "r1" "Launchpad" = 1 ∧
    findAnalysis (saveAnalysisE false
        (saveAnalysisE false [] 0 "r1" "Launchpad"
          ⟨strList ["a"], strList ["b"], strList ["c"], strList ["d"], strList ["e"],
           88, JVal.str "s1"⟩).1 5 "r1" "Launchpad"
          ⟨strList ["f"], strList ["g"], strList ["h"], strList ["i"], strList ["j"],
           90, JVal.str "s2"⟩).1 "r1" "Launchpad"
      = some (mkDoc "r1" "Launchpad" 5
          ⟨strList ["f"], strList ["g"], strList ["h"], strList ["i"], strList ["j"],
           90, JVal.str "s2"⟩) := by
  have h := c4_upsert_key_uniqueness [] "r1" "Launchpad"
    ⟨strList ["a"], strList ["b"], strList ["c"], strList ["d"], strList ["e"],
     88, JVal.str "s1"⟩
    ⟨strList ["f"], strList ["g"], strList ["h"], strList ["i"], strList ["j"],
     90, JVal.str "s2"⟩ 0 5
    (fun rid cname => by simp [countKey, UniqueKeys]) (by norm_num)
  exact ⟨h.1, h.2.1⟩

/-- Claim C8 (cleanup boundary): with a working driver, cleanup keeps
exactly the records at least as recent as `now - days_old` days — one
exactly `days_old` days old is retained — removes exactly the strictly
older ones, and returns the removed count; a failing driver yields count
0 and an untouched collection. -/
theorem c8_cleanup_boundary (db : List AnalysisDoc) (now days_old : Int) :
    (cleanupOldAnalyses false db now days_old).1
        = db.filter (fun d => !decide (d.analysis_timestamp < now - days_old * 86400)) ∧
    (cleanupOldAnalyses false db now days_old).2.1
        = (db.filter (fun d => decide (d.analysis_timestamp < now - days_old * 86400))).length ∧
    (∀ d ∈ db, d.analysis_timestamp = now - days_old * 86400 →
        d ∈ (cleanupOldAnalyses false db now days_old).1) ∧
    (∀ d ∈ db, d.analysis_timestamp < now - days_old * 86400 →
        d ∉ (cleanupOldAnalyses false db now days_old).1) ∧
    (∀ d ∈ (cleanupOldAnalyses false db now days_old).1,
        d ∈ db ∧ ¬ d.analysis_timestamp < now - days_old * 86400) ∧
    cleanupOldAnalyses true db now days_old = (db, 0, ["Error cleaning up old analyses"]) := by
  refine ⟨rfl, rfl, ?_, ?_, ?_, rfl⟩
  · intro d hd he
    simp [cleanupOldAnalyses, List.mem_filter, hd, he]
  · intro d hd hlt
    simp [cleanupOldAnalyses, List.mem_filter, hlt]
  · intro d hd
    simp only [cleanupOldAnalyses, Bool.false_eq_true, if_false, List.mem_filter,
      Bool.not_eq_true', decide_eq_false_iff_not] at hd
    exact hd

/-- Claim C8 witness: with `days_old = 1` and `now` one day plus nothing
past the epoch, a record exactly at the cutoff is retained, a strictly
older one is removed, and the removed count is 1. -/
theorem c8_cleanup_boundary_witness :
    (mkDoc "r1" "A" 0 jsonFallbackResult
        ∈ (cleanupOldAnalyses false
            [mkDoc "r1" "A" 0 jsonFallbackResult, mkDoc "r1" "B" (-1) jsonFallbackResult]
            86400 1).1) ∧
    (mkDoc "r1" "B" (-1) jsonFallbackResult
        ∉ (cleanupOldAnalyses false
            [mkDoc "r1" "A" 0 jsonFallbackResult, mkDoc "r1" "B" (-1) jsonFallbackResult]
            86400 1).1) ∧
    (cleanupOldAnalyses false
        [mkDoc "r1" "A" 0 jsonFallbackResult, mkDoc "r1" "B" (-1) jsonFallbackResult]
        86400 1).2.1 = 1 := by
  have h := c8_cleanup_boundary
    [mkDoc "r1" "A" 0 jsonFallbackResult, mkDoc "r1" "B" (-1) jsonFallbackResult] 86400 1
  refine ⟨h.2.2.1 _ (by simp) (by rfl), h.2.2.2.1 _ (by simp) (by decide), ?_⟩
  rw [h.2.1]
  rfl

/-! ## Lemmas about the orchestrator's control flow -/

theorem llmAnalyzerAnalyze_calls (w : World) (hclient : w.clientInit = true)
    (rt : String) (club : List (String × String)) :
    (llmAnalyzerAnalyze w rt club).2.1 = 1 := by
  simp only [llmAnalyzerAnalyze, hclient, Bool.not_true, Bool.false_eq_true, if_false]
  cases w.llmOutcome <;> rfl

theorem configured_client {w : World} (hc : isConfigured w = true) :
    w.clientInit = true := by
  have h := hc
  simp only [isConfigured, Bool.and_eq_true] at h
  exact h.2

theorem cacheLookupStep_force (w : World) (now : Int) (db : List AnalysisDoc)
    (rid cname : String) : cacheLookupStep w now db rid cname true = (none, []) := rfl

theorem analyzeResumeForClub_cacheMiss (w : World) (now : Int) (db : List AnalysisDoc)
    (rid rt : String) (club : List (String × String)) (force : Bool) (m : List String)
    (hstep : cacheLookupStep w now db rid (clubNameOf club) force = (none, m))
    (hc : isConfigured w = true) :
    analyzeResumeForClub w now db rid rt club force
      = ⟨some (llmAnalyzerAnalyze w rt club).1,
         (llmAnalyzerAnalyze w rt club).2.1,
         (saveAnalysisE w.saveFailure db now rid (clubNameOf club)
            (llmAnalyzerAnalyze w rt club).1).1,
         m ++ (llmAnalyzerAnalyze w rt club).2.2
           ++ (saveAnalysisE w.saveFailure db now rid (clubNameOf club)
                (llmAnalyzerAnalyze w rt club).1).2⟩ := by
  simp [analyzeResumeForClub, hstep, hc]

theorem analyzeResumeForClub_force (w : World) (now : Int) (db : List AnalysisDoc)
    (rid rt : String) (club : List (String × String))
    (hc : isConfigured w = true) (hs : w.saveFailure = false) :
    analyzeResumeForClub w now db rid rt club true
      = ⟨some (llmAnalyzerAnalyze w rt club).1,
         (llmAnalyzerAnalyze w rt club).2.1,
         upsertDoc db (mkDoc rid (clubNameOf club) now (llmAnalyzerAnalyze w rt club).1),
         (llmAnalyzerAnalyze w rt club).2.2⟩ := by
  rw [analyzeResumeForClub_cacheMiss w now db rid rt club true []
    (cacheLookupStep_force w now db rid (clubNameOf club)) hc]
  simp [saveAnalysisE, hs]

theorem analyzeResumeForClub_freshHit (w : World) (now : Int) (db : List AnalysisDoc)
    (rid rt : String) (club : List (String × String)) (c : AnalysisDoc)
    (hg : w.getFailure = false)
    (hfind : findAnalysis db rid (clubNameOf club) = some c)
    (hfresh : now - c.analysis_timestamp < cacheDuration) :
    analyzeResumeForClub w now db rid rt club false
      = ⟨some (resultOfDoc c), 0, db, []⟩ := by
  have hstep : cacheLookupStep w now db rid (clubNameOf club) false
      = (some (resultOfDoc c), []) := by
    simp [cacheLookupStep, getAnalysisE, hg, hfind, hfresh]
  simp [analyzeResumeForClub, hstep]

/-- Claim C1 (cache freshness): with a working read and `force_refresh`
false, a cached record for `(resume_id, club-name-of-record)` younger
than 24 hours is returned unchanged with zero LLM calls and no store
write; one older than 24 hours leads, when the adapter is configured, to
an LLM invocation. -/
theorem c1_cache_freshness (w : World) (now : Int) (db : List AnalysisDoc)
    (rid rt : String) (club : List (String × String)) (c : AnalysisDoc)
    (hg : w.getFailure = false)
    (hfind : findAnalysis db rid (clubNameOf club) = some c) :
    (now - c.analysis_timestamp < cacheDuration →
      analyzeResumeForClub w now db rid rt club false
        = ⟨some (resultOfDoc c), 0, db, []⟩) ∧
    (cacheDuration < now - c.analysis_timestamp → isConfigured w = true →
      (analyzeResumeForClub w now db rid rt club false).llmCalls = 1) := by
  constructor
  · intro hfresh
    exact analyzeResumeForClub_freshHit w now db rid rt club c hg hfind hfresh
  · intro hstale hc
    have hstep : cacheLookupStep w now db rid (clubNameOf club) false = (none, []) := by
      simp only [cacheLookupStep, Bool.false_eq_true, if_false, getAnalysisE, hg, hfind]
      rw [if_neg (by omega)]
    rw [analyzeResumeForClub_cacheMiss w now db rid rt club false [] hstep hc]
    exact llmAnalyzerAnalyze_calls w (configured_client hc) rt club

/-- Claim C1 witness: a 100-second-old record is served from cache with
no LLM call and no write; at a time 200000 seconds past the record's
timestamp the adapter is invoked. -/
theorem c1_cache_freshness_witness :
    analyzeResumeForClub ⟨false, false, false, true, true, Except.ok "irrelevant"⟩ 100
        [mkDoc "r1" "Alpha" 0 jsonFallbackResult] "r1" "txt" [("Club Name", "Alpha")] false
      = ⟨some (resultOfDoc (mkDoc "r1" "Alpha" 0 jsonFallbackResult)), 0,
         [mkDoc "r1" "Alpha" 0 jsonFallbackResult], []⟩ ∧
    (analyzeResumeForClub ⟨false, false, false, true, true, Except.ok "irrelevant"⟩ 200000
        [mkDoc "r1" "Alpha" 0 jsonFallbackResult] "r1" "txt" [("Club Name", "Alpha")]
        false).llmCalls = 1 := by
  constructor
  · exact (c1_cache_freshness ⟨false, false, false, true, true, Except.ok "irrelevant"⟩ 100
      [mkDoc "r1" "Alpha" 0 jsonFallbackResult] "r1" "txt" [("Club Name", "Alpha")]
      (mkDoc "r1" "Alpha" 0 jsonFallbackResult) rfl rfl).1 (by decide)
  · exact (c1_cache_freshness ⟨false, false, false, true, true, Except.ok "irrelevant"⟩ 200000
      [mkDoc "r1" "Alpha" 0 jsonFallbackResult] "r1" "txt" [("Club Name", "Alpha")]
      (mkDoc "r1" "Alpha" 0 jsonFallbackResult) rfl rfl).2 (by decide) rfl

/-- Claim C2, corrected (failure semantics): on a cache miss with a
configured adapter, an LLM call that raises through its retry ceiling is
caught and reported, but `analyze` returns the degraded fallback
`AnalysisResult` (match score 0) rather than an absent value; a failing
persistence call is caught and reported, the collection is left
unchanged, and the computed result is still returned.  No failure
escapes: every path yields a defined outcome. -/
theorem c2_failure_degrades (w : World) (now : Int) (db : List AnalysisDoc)
    (rid rt : String) (club : List (String × String)) (force : Bool)
    (hc : isConfigured w = true)
    (hmiss : (cacheLookupStep w now db rid (clubNameOf club) force).1 = none) :
    (∀ e, w.llmOutcome = Except.error e →
      (analyzeResumeForClub w now db rid rt club force).result
          = some (analysisFailedResult e) ∧
      (analysisFailedResult e).match_score = 0 ∧
      (analyzeResumeForClub w now db rid rt club force).errors ≠ []) ∧
    (w.saveFailure = true →
      (analyzeResumeForClub w now db rid rt club force).db = db ∧
      (analyzeResumeForClub w now db rid rt club force).result.isSome = true ∧
      (analyzeResumeForClub w now db rid rt club force).errors ≠ []) := by
  have hclient : w.clientInit = true := (configured_client hc)
  have hpair : cacheLookupStep w now db rid (clubNameOf club) force
      = (none, (cacheLookupStep w now db rid (clubNameOf club) force).2) := by
    rw [← hmiss]
  rw [analyzeResumeForClub_cacheMiss w now db rid rt club force _ hpair hc]
  constructor
  · intro e he
    have har : llmAnalyzerAnalyze w rt club
        = (analysisFailedResult e, 1,
           ["LLM API call failed: " ++ e, "Analysis failed: " ++ e]) := by
      simp [llmAnalyzerAnalyze, hclient, he]
    rw [har]
    refine ⟨by simp [saveAnalysisE], rfl, ?_⟩
    simp
  · intro hsf
    rw [hsf]
    refine ⟨by simp [saveAnalysisE], rfl, ?_⟩
    simp [saveAnalysisE]

/-- Claim C2 counterexample: with a configured adapter whose call fails
after retries, `analyze` does not return an absent result — it returns
the persisted degraded fallback. -/
theorem c2_counterexample :
    (analyzeResumeForClub ⟨false, false, false, true, true, Except.error "boom"⟩ 0 []
        "r1" "txt" [("Club Name", "Alpha")] false).result
      = some (analysisFailedResult "boom") ∧
    (analyzeResumeForClub ⟨false, false, false, true, true, Except.error "boom"⟩ 0 []
        "r1" "txt" [("Club Name", "Alpha")] false).result ≠ none := by
  have h : (analyzeResumeForClub ⟨false, false, false, true, true, Except.error "boom"⟩ 0 []
      "r1" "txt" [("Club Name", "Alpha")] false).result
        = some (analysisFailedResult "boom") := rfl
  exact ⟨h, by rw [h]; exact Option.some_ne_none _⟩

/-- Claim C2 witness: the amended statement at a failing LLM call and at
a failing save. -/
theorem c2_failure_degrades_witness :
    (analyzeResumeForClub ⟨false, false, false, true, true, Except.error "boom"⟩ 7 []
        "r1" "txt" [("Club Name", "Alpha")] false).result
      = some (analysisFailedResult "boom") ∧
    (analyzeResumeForClub ⟨false, false, false, true, true, Except.error "boom"⟩ 7 []
        "r1" "txt" [("Club Name", "Alpha")] false).errors ≠ [] ∧
    (analyzeResumeForClub ⟨false, true, false, true, true, Except.ok "\x7b\x7d"⟩ 7 []
        "r1" "txt" [("Club Name", "Alpha")] false).db = [] ∧
    (analyzeResumeForClub ⟨false, true, false, true, true, Except.ok "\x7b\x7d"⟩ 7 []
        "r1" "txt" [("Club Name", "Alpha")] false).errors ≠ [] := by
  have h1 := (c2_failure_degrades ⟨false, false, false, true, true, Except.error "boom"⟩ 7 []
    "r1" "txt" [("Club Name", "Alpha")] false rfl rfl).1 "boom" rfl
  have h2 := (c2_failure_degrades ⟨false, true, false, true, true, Except.ok "\x7b\x7d"⟩ 7 []
    "r1" "txt" [("Club Name", "Alpha")] false rfl rfl).2 rfl
  exact ⟨h1.1, h1.2.2, h2.1, h2.2.2⟩

/-- Claim C3 (force refresh bypasses cache): with a configured adapter
and a working write, `force_refresh=true` always invokes the LLM adapter
exactly once — whatever the cache state — and the record stored under
`(resume_id, club_name)` afterwards is the newly computed result with
the fresh timestamp. -/
theorem c3_force_refresh_bypasses (w : World) (now : Int) (db : List AnalysisDoc)
    (rid rt : String) (club : List (String × String))
    (hc : isConfigured w = true) (hs : w.saveFailure = false) :
    (analyzeResumeForClub w now db rid rt club true).llmCalls = 1 ∧
    (analyzeResumeForClub w now db rid rt club true).result
        = some (llmAnalyzerAnalyze w rt club).1 ∧
    findAnalysis (analyzeResumeForClub w now db rid rt club true).db rid (clubNameOf club)
        = some (mkDoc rid (clubNameOf club) now (llmAnalyzerAnalyze w rt club).1) := by
  rw [analyzeResumeForClub_force w now db rid rt club hc hs]
  refine ⟨llmAnalyzerAnalyze_calls w (configured_client hc) rt club, rfl, ?_⟩
  exact findAnalysis_upsert db (mkDoc rid (clubNameOf club) now (llmAnalyzerAnalyze w rt club).1)

/-- Claim C3 witness: a fresh cached record exists, yet a forced refresh
calls the adapter once and overwrites the stored record. -/
theorem c3_force_refresh_bypasses_witness :
    (analyzeResumeForClub ⟨false, false, false, true, true,
        Except.ok "\x7b\"match_score\": 99\x7d"⟩ 50
        [mkDoc "r1" "Alpha" 0 jsonFallbackResult] "r1" "txt"
        [("Club Name", "Alpha")] true).llmCalls = 1 ∧
    findAnalysis (analyzeResumeForClub ⟨false, false, false, true, true,
        Except.ok "\x7b\"match_score\": 99\x7d"⟩ 50
        [mkDoc "r1" "Alpha" 0 jsonFallbackResult] "r1" "txt"
        [("Club Name", "Alpha")] true).db "r1" "Alpha"
      = some (mkDoc "r1" "Alpha" 50
          (llmAnalyzerAnalyze ⟨false, false, false, true, true,
            Except.ok "\x7b\"match_score\": 99\x7d"⟩ "txt" [("Club Name", "Alpha")]).1) := by
  have h := c3_force_refresh_bypasses ⟨false, false, false, true, true,
    Except.ok "\x7b\"match_score\": 99\x7d"⟩ 50
    [mkDoc "r1" "Alpha" 0 jsonFallbackResult] "r1" "txt" [("Club Name", "Alpha")] rfl rfl
  exact ⟨h.1, h.2.2⟩

/-- Claim C10 (default cache key for unnamed clubs): every club record
without a `"Club Name"` attribute keys the cache and the store under the
literal `"Unknown Club"`, so for one resume all such records read and
overwrite one single shared stored record: after analyzing one unnamed
club, analyzing a different unnamed club within the cache window returns
the first club's cached result without an LLM call, and a forced
re-analysis for the second club overwrites the same shared record. -/
theorem c10_unknown_club_shared_key (w1 w2 : World) (now1 now2 : Int)
    (db : List AnalysisDoc) (rid rt1 rt2 : String)
    (cd1 cd2 : List (String × String))
    (h1 : cd1.lookup "Club Name" = none) (h2 : cd2.lookup "Club Name" = none)
    (hc1 : isConfigured w1 = true) (hs1 : w1.saveFailure = false)
    (hc2 : isConfigured w2 = true) (hs2 : w2.saveFailure = false)
    (hg2 : w2.getFailure = false) (hfresh : now2 - now1 < cacheDuration) :
    clubNameOf cd1 = "Unknown Club" ∧
    clubNameOf cd2 = "Unknown Club" ∧
    analyzeResumeForClub w2 now2 (analyzeResumeForClub w1 now1 db rid rt1 cd1 true).db
        rid rt2 cd2 false
      = ⟨some (llmAnalyzerAnalyze w1 rt1 cd1).1, 0,
         (analyzeResumeForClub w1 now1 db rid rt1 cd1 true).db, []⟩ ∧
    findAnalysis (analyzeResumeForClub w2 now2
        (analyzeResumeForClub w1 now1 db rid rt1 cd1 true).db rid rt2 cd2 true).db
        rid "Unknown Club"
      = some (mkDoc rid "Unknown Club" now2 (llmAnalyzerAnalyze w2 rt2 cd2).1) := by
  have hn1 : clubNameOf cd1 = "Unknown Club" := by simp [clubNameOf, h1]
  have hn2 : clubNameOf cd2 = "Unknown Club" := by simp [clubNameOf, h2]
  have hdb1 := analyzeResumeForClub_force w1 now1 db rid rt1 cd1 hc1 hs1
  refine ⟨hn1, hn2, ?_, ?_⟩
  · have hfind : findAnalysis (analyzeResumeForClub w1 now1 db rid rt1 cd1 true).db rid
        (clubNameOf cd2)
          = some (mkDoc rid "Unknown Club" now1 (llmAnalyzerAnalyze w1 rt1 cd1).1) := by
      rw [hdb1, hn2, ← hn1]
      exact findAnalysis_upsert db (mkDoc rid (clubNameOf cd1) now1 (llmAnalyzerAnalyze w1 rt1 cd1).1)
    rw [analyzeResumeForClub_freshHit w2 now2 _ rid rt2 cd2 _ hg2 hfind (by exact hfresh)]
    rfl
  · rw [analyzeResumeForClub_force w2 now2 _ rid rt2 cd2 hc2 hs2, hn2, ← hn2]
    exact findAnalysis_upsert _ (mkDoc rid (clubNameOf cd2) now2 (llmAnalyzerAnalyze w2 rt2 cd2).1)

/-- Claim C10 witness: two different unnamed club records for one resume
share the single `"Unknown Club"` record. -/
theorem c10_unknown_club_shared_key_witness :
    clubNameOf [("Primary Focus", "AI")] = "Unknown Club" ∧
    analyzeResumeForClub ⟨false, false, false, true, true, Except.ok "\x7b\x7d"⟩ 60
        (analyzeResumeForClub ⟨false, false, false, true, true,
          Except.ok "\x7b\"match_score\": 42\x7d"⟩ 10 [] "r1" "txt"
          [("Primary Focus", "AI")] true).db "r1" "txt" [("Primary Focus", "Web")] false
      = ⟨some (llmAnalyzerAnalyze ⟨false, false, false, true, true,
            Except.ok "\x7b\"match_score\": 42\x7d"⟩ "txt" [("Primary Focus", "AI")]).1, 0,
         (analyzeResumeForClub ⟨false, false, false, true, true,
          Except.ok "\x7b\"match_score\": 42\x7d"⟩ 10 [] "r1" "txt"
          [("Primary Focus", "AI")] true).db, []⟩ := by
  have h := c10_unknown_club_shared_key
    ⟨false, false, false, true, true, Except.ok "\x7b\"match_score\": 42\x7d"⟩
    ⟨false, false, false, true, true, Except.ok "\x7b\x7d"⟩ 10 60 [] "r1" "txt" "txt"
    [("Primary Focus", "AI")] [("Primary Focus", "Web")]
    rfl rfl rfl rfl rfl rfl rfl (by decide)
  exact ⟨h.1, h.2.2.1⟩

/-! ## Lemmas about the JSON decoder: adding surrounding whitespace -/

theorem skipWs_ws_nil {tail : List Char} (h : WsOnly tail) : skipWs tail = [] :=
  List.dropWhile_eq_nil_iff.mpr h

theorem skipWs_append_of_nil {xs tail : List Char} (h : WsOnly tail)
    (hnil : skipWs xs = []) : skipWs (xs ++ tail) = [] := by
  unfold skipWs at hnil ⊢
  rw [List.dropWhile_append, hnil]
  simpa using h

theorem skipWs_append_of_ne_nil {xs tail : List Char} (hne : skipWs xs ≠ []) :
    skipWs (xs ++ tail) = skipWs xs ++ tail := by
  unfold skipWs at hne ⊢
  rw [List.dropWhile_append]
  simp [List.isEmpty_iff, hne]

theorem wsNotDigit {c : Char} (h : isJsonWs c = true) : c.isDigit = false := by
  simp only [isJsonWs, Bool.or_eq_true, decide_eq_true_eq] at h
  rcases h with ((h | h) | h) | h <;> subst h <;> decide

theorem wsNotNumCont {c : Char} (h : isJsonWs c = true) :
    ¬(c = '.' ∨ c = 'e' ∨ c = 'E') := by
  simp only [isJsonWs, Bool.or_eq_true, decide_eq_true_eq] at h
  rcases h with ((h | h) | h) | h <;> subst h <;> decide

theorem takeWhile_digit_ws_nil {l : List Char} (h : WsOnly l) :
    l.takeWhile Char.isDigit = [] := by
  cases l with
  | nil => rfl
  | cons c cs =>
    rw [List.takeWhile_cons, wsNotDigit (h c (by simp))]
    simp

theorem dropWhile_digit_ws_self {l : List Char} (h : WsOnly l) :
    l.dropWhile Char.isDigit = l := by
  cases l with
  | nil => rfl
  | cons c cs =>
    rw [List.dropWhile_cons, wsNotDigit (h c (by simp))]
    simp

theorem pLit_ext (lit : List Char) (v : JVal) (cs tail : List Char) (r1 : JVal)
    (r2 : List Char) (h : pLit lit v cs = some (r1, r2)) :
    pLit lit v (cs ++ tail) = some (r1, r2 ++ tail) := by
  unfold pLit at h ⊢
  by_cases hp : lit.isPrefixOf cs
  · rw [if_pos hp] at h
    have hpre : lit <+: cs := List.isPrefixOf_iff_prefix.mp hp
    have hp2 : lit.isPrefixOf (cs ++ tail) :=
      List.isPrefixOf_iff_prefix.mpr (hpre.trans (List.prefix_append cs tail))
    rw [if_pos hp2]
    simp only [Option.some.injEq, Prod.mk.injEq] at h
    obtain ⟨hh1, hh2⟩ := h
    subst hh1; subst hh2
    rw [List.drop_append_of_le_length hpre.length_le]
  · rw [if_neg hp] at h
    exact Option.noConfusion h

theorem pStr_ext (cs s rest tail : List Char)
    (h : pStr cs = some (s, rest)) : pStr (cs ++ tail) = some (s, rest ++ tail) := by
  induction cs using pStr.induct generalizing s rest with
  | case1 => simp [pStr] at h
  | case2 r =>
    simp [pStr] at h ⊢
    exact ⟨h.1, by rw [h.2]⟩
  | case3 h1 h2 h3 h4 rest' a b c d ha hb hc hd n hcond ih =>
    have hcond' : ((a * 16 + b) * 16 + c) * 16 + d < 55296
        ∨ 57344 ≤ ((a * 16 + b) * 16 + c) * 16 + d := hcond
    simp only [pStr, ha, hb, hc, hd, List.cons_append, List.append_eq] at h ⊢
    rw [if_pos hcond'] at h ⊢
    cases hps : pStr rest' with
    | none => rw [hps] at h; simp at h
    | some p =>
      obtain ⟨s', r'⟩ := p
      rw [hps] at h
      simp only [Option.map_some', Option.some.injEq, Prod.mk.injEq] at h
      obtain ⟨hh1, hh2⟩ := h
      subst hh1; subst hh2
      rw [ih s' r' hps]
      rfl
  | case4 h1 h2 h3 h4 rest' a b c d ha hb hc hd n hcond =>
    have hcond' : ¬(((a * 16 + b) * 16 + c) * 16 + d < 55296
        ∨ 57344 ≤ ((a * 16 + b) * 16 + c) * 16 + d) := hcond
    simp only [pStr, ha, hb, hc, hd] at h
    rw [if_neg hcond'] at h
    exact Option.noConfusion h
  | case5 => simp [pStr] at h
  | case6 e rest' hnotu ec hesc ih =>
    have hneu : e ≠ 'u' := by
      intro he; subst he; simp [escChar] at hesc
    simp only [pStr, hesc, List.cons_append, List.append_eq] at h ⊢
    cases hps : pStr rest' with
    | none => rw [hps] at h; simp at h
    | some p =>
      obtain ⟨s', r'⟩ := p
      rw [hps] at h
      simp only [Option.map_some', Option.some.injEq, Prod.mk.injEq] at h
      obtain ⟨hh1, hh2⟩ := h
      subst hh1; subst hh2
      simp [pStr, hneu, hesc, ih s' r' hps]
  | case7 e rest' hnotu hesc =>
    simp [pStr, hesc] at h
  | case8 c rest' hne1 hnp1 hnp2 h32 =>
    simp [pStr] at h
    exact absurd h.1 (by omega)
  | case9 c rest' hne1 hnp1 hnp2 hge ih =>
    simp [pStr] at h
    obtain ⟨hge2, a, hps, hs⟩ := h
    subst hs
    by_cases hc : c = '\\'
    · subst hc
      cases rest' with
      | nil => simp [pStr] at hps
      | cons e r0 => exact (hnp2 e r0 rfl rfl).elim
    · have hcq : c ≠ '\"' := fun hh => hne1 hh
      rw [List.cons_append]
      simp [pStr, hc, hcq, ih a rest hps, hge2]

theorem pNumCore_ext (neg : Bool) (cs1 tail : List Char) (n : Int) (rest : List Char)
    (hws : WsOnly tail) (h : pNumCore neg cs1 = some (n, rest)) :
    pNumCore neg (cs1 ++ tail) = some (n, rest ++ tail) := by
  by_cases hds : cs1.takeWhile Char.isDigit = []
  · simp [pNumCore, hds] at h
  · cases hrest : cs1.dropWhile Char.isDigit with
    | nil =>
      have hall : ∀ x ∈ cs1, x.isDigit := List.dropWhile_eq_nil_iff.mp hrest
      have htw : cs1.takeWhile Char.isDigit = cs1 := List.takeWhile_eq_self_iff.mpr hall
      have hne : cs1 ≠ [] := by intro hh; exact hds (by rw [hh]; rfl)
      have htw2 : (cs1 ++ tail).takeWhile Char.isDigit = cs1 := by
        rw [List.takeWhile_append, htw]
        simp [takeWhile_digit_ws_nil hws]
      have hdw2 : (cs1 ++ tail).dropWhile Char.isDigit = tail := by
        rw [List.dropWhile_append, hrest]
        simp [dropWhile_digit_ws_self hws]
      unfold pNumCore at h ⊢
      rw [htw, hrest] at h
      rw [htw2, hdw2]
      rw [if_neg hne] at h ⊢
      by_cases hc2 : 1 < cs1.length ∧ cs1.head? = some '0'
      · rw [if_pos hc2] at h; exact Option.noConfusion h
      · rw [if_neg hc2] at h ⊢
        rw [if_neg (by simp)] at h
        rw [if_neg ?hfloat]
        case hfloat =>
          cases tail with
          | nil => simp
          | cons c0 t0 =>
            simp only [List.head?_cons]
            intro hcontra
            apply wsNotNumCont (hws c0 (by simp))
            rcases hcontra with hc | hc | hc
            · exact Or.inl (by injection hc)
            · exact Or.inr (Or.inl (by injection hc))
            · exact Or.inr (Or.inr (by injection hc))
        simp only [Option.some.injEq, Prod.mk.injEq] at h
        obtain ⟨hh1, hh2⟩ := h
        subst hh1
        rw [← hh2]
        rfl
    | cons r rest0' =>
      have hpre : cs1.takeWhile Char.isDigit <+: cs1 := List.takeWhile_prefix _
      have hlen : (cs1.takeWhile Char.isDigit).length ≠ cs1.length := by
        intro hl
        have heq : cs1.takeWhile Char.isDigit = cs1 := hpre.eq_of_length hl
        have hnil : cs1.dropWhile Char.isDigit = [] := by
          have hall := List.takeWhile_eq_self_iff.mp heq
          exact List.dropWhile_eq_nil_iff.mpr hall
        rw [hrest] at hnil
        exact List.noConfusion hnil
      have htw2 : (cs1 ++ tail).takeWhile Char.isDigit = cs1.takeWhile Char.isDigit := by
        rw [List.takeWhile_append, if_neg hlen]
      have hdw2 : (cs1 ++ tail).dropWhile Char.isDigit = (r :: rest0') ++ tail := by
        rw [List.dropWhile_append, hrest]
        simp
      unfold pNumCore at h ⊢
      rw [hrest] at h
      rw [htw2, hdw2]
      simp only [List.cons_append, List.head?_cons] at h ⊢
      split_ifs at h ⊢ <;> try exact Option.noConfusion h
      all_goals
        simp only [Option.some.injEq, Prod.mk.injEq] at h
        obtain ⟨hh1, hh2⟩ := h
        subst hh1
        rw [← hh2]
        simp

theorem pNum_ext (cs tail : List Char) (n : Int) (rest : List Char) (hws : WsOnly tail)
    (h : pNum cs = some (n, rest)) : pNum (cs ++ tail) = some (n, rest ++ tail) := by
  cases cs with
  | nil => simp [pNum, pNumCore] at h
  | cons c cs' =>
    unfold pNum at h ⊢
    simp only [List.head?_cons, List.tail_cons, List.cons_append] at h ⊢
    by_cases hneg : (some c : Option Char) = some '-'
    · rw [if_pos hneg] at h ⊢
      exact pNumCore_ext true cs' tail n rest hws h
    · rw [if_neg hneg] at h ⊢
      exact pNumCore_ext false (c :: cs') tail n rest hws h

theorem pValue_nil (f : Nat) : pValue f [] = none := by cases f <;> rfl

theorem pElems_nil (f : Nat) : pElems f [] = none := by
  cases f with
  | zero => rfl
  | succ f => simp [pElems, pValue_nil]

theorem pMembers_nil (f : Nat) : pMembers f [] = none := by cases f <;> rfl

/-! ## The decoder ignores surrounding whitespace -/


theorem pExt (f : Nat) :
    (∀ cs v rest tail, WsOnly tail → pValue f cs = some (v, rest) →
        pValue f (cs ++ tail) = some (v, rest ++ tail)) ∧
    (∀ cs vs rest tail, WsOnly tail → pElems f cs = some (vs, rest) →
        pElems f (cs ++ tail) = some (vs, rest ++ tail)) ∧
    (∀ cs ms rest tail, WsOnly tail → pMembers f cs = some (ms, rest) →
        pMembers f (cs ++ tail) = some (ms, rest ++ tail)) := by
  induction f with
  | zero =>
    refine ⟨?_, ?_, ?_⟩ <;> intro cs x rest tail hws h <;>
      simp [pValue, pElems, pMembers] at h
  | succ f ih =>
    obtain ⟨ihV, ihE, ihM⟩ := ih
    refine ⟨?_, ?_, ?_⟩
    · intro cs v rest tail hws h
      cases cs with
      | nil => simp [pValue] at h
      | cons c cs' =>
        simp only [pValue, List.cons_append] at h ⊢
        by_cases hq : c = '"'
        · subst hq
          rw [if_pos rfl] at h ⊢
          cases hps : pStr cs' with
          | none => rw [hps] at h; exact Option.noConfusion h
          | some p =>
            obtain ⟨s', r'⟩ := p
            rw [hps] at h
            simp only [Option.map_some', Option.some.injEq, Prod.mk.injEq] at h
            obtain ⟨hh1, hh2⟩ := h
            subst hh1; subst hh2
            rw [pStr_ext cs' s' r' tail hps]
            rfl
        · rw [if_neg hq] at h ⊢
          by_cases hb : c = '['
          · subst hb
            rw [if_pos rfl] at h ⊢
            cases hsw : skipWs cs' with
            | nil =>
              rw [hsw] at h
              rw [if_neg (by simp)] at h
              rw [pElems_nil] at h
              exact Option.noConfusion h
            | cons d ds =>
              rw [hsw] at h
              have hne : skipWs cs' ≠ [] := by rw [hsw]; simp
              have hsw2 : skipWs (cs' ++ tail) = d :: (ds ++ tail) := by
                rw [skipWs_append_of_ne_nil hne, hsw]; rfl
              rw [hsw2]
              simp only [List.head?_cons, List.tail_cons] at h ⊢
              by_cases hd : d = ']'
              · subst hd
                rw [if_pos rfl] at h ⊢
                simp only [Option.some.injEq, Prod.mk.injEq] at h ⊢
                exact ⟨h.1, by rw [← h.2]⟩
              · have hd' : ¬((some d : Option Char) = some ']') := by simp [hd]
                rw [if_neg hd'] at h ⊢
                cases hpe : pElems f (d :: ds) with
                | none => rw [hpe] at h; exact Option.noConfusion h
                | some p =>
                  obtain ⟨vs', r'⟩ := p
                  rw [hpe] at h
                  simp only [Option.map_some', Option.some.injEq, Prod.mk.injEq] at h
                  obtain ⟨hh1, hh2⟩ := h
                  subst hh1; subst hh2
                  have hext := ihE (d :: ds) vs' r' tail hws hpe
                  rw [List.cons_append] at hext
                  rw [hext]
                  rfl
          · rw [if_neg hb] at h ⊢
            by_cases hc : c = '{'
            · subst hc
              rw [if_pos rfl] at h ⊢
              cases hsw : skipWs cs' with
              | nil =>
                rw [hsw] at h
                rw [if_neg (by simp)] at h
                rw [pMembers_nil] at h
                exact Option.noConfusion h
              | cons d ds =>
                rw [hsw] at h
                have hne : skipWs cs' ≠ [] := by rw [hsw]; simp
                have hsw2 : skipWs (cs' ++ tail) = d :: (ds ++ tail) := by
                  rw [skipWs_append_of_ne_nil hne, hsw]; rfl
                rw [hsw2]
                simp only [List.head?_cons, List.tail_cons] at h ⊢
                by_cases hd : d = '}'
                · subst hd
                  rw [if_pos rfl] at h ⊢
                  simp only [Option.some.injEq, Prod.mk.injEq] at h ⊢
                  exact ⟨h.1, by rw [← h.2]⟩
                · have hd' : ¬((some d : Option Char) = some '}') := by simp [hd]
                  rw [if_neg hd'] at h ⊢
                  cases hpe : pMembers f (d :: ds) with
                  | none => rw [hpe] at h; exact Option.noConfusion h
                  | some p =>
                    obtain ⟨ms', r'⟩ := p
                    rw [hpe] at h
                    simp only [Option.map_some', Option.some.injEq, Prod.mk.injEq] at h
                    obtain ⟨hh1, hh2⟩ := h
                    subst hh1; subst hh2
                    have hext := ihM (d :: ds) ms' r' tail hws hpe
                    rw [List.cons_append] at hext
                    rw [hext]
                    rfl
            · rw [if_neg hc] at h ⊢
              by_cases ht : c = 't'
              · rw [if_pos ht] at h ⊢
                exact pLit_ext _ _ _ tail v rest h
              · rw [if_neg ht] at h ⊢
                by_cases hf : c = 'f'
                · rw [if_pos hf] at h ⊢
                  exact pLit_ext _ _ _ tail v rest h
                · rw [if_neg hf] at h ⊢
                  by_cases hn : c = 'n'
                  · rw [if_pos hn] at h ⊢
                    exact pLit_ext _ _ _ tail v rest h
                  · rw [if_neg hn] at h ⊢
                    by_cases hm : c = '-' ∨ c.isDigit
                    · rw [if_pos hm] at h ⊢
                      cases hpn : pNum (c :: cs') with
                      | none => rw [hpn] at h; exact Option.noConfusion h
                      | some p =>
                        obtain ⟨n', r'⟩ := p
                        rw [hpn] at h
                        simp only [Option.map_some', Option.some.injEq,
                          Prod.mk.injEq] at h
                        obtain ⟨hh1, hh2⟩ := h
                        subst hh1; subst hh2
                        have hext := pNum_ext (c :: cs') tail n' r' hws hpn
                        rw [List.cons_append] at hext
                        rw [hext]
                        rfl
                    · rw [if_neg hm] at h
                      exact Option.noConfusion h
    · intro cs vs rest tail hws h
      cases hpv : pValue f cs with
      | none => simp only [pElems, hpv] at h; exact Option.noConfusion h
      | some p =>
        obtain ⟨v, rest1⟩ := p
        simp only [pElems, hpv] at h
        simp only [pElems, ihV cs v rest1 tail hws hpv]
        cases hsw : skipWs rest1 with
        | nil =>
          rw [hsw] at h
          simp at h
        | cons d ds =>
          rw [hsw] at h
          have hne : skipWs rest1 ≠ [] := by rw [hsw]; simp
          have hsw2 : skipWs (rest1 ++ tail) = d :: (ds ++ tail) := by
            rw [skipWs_append_of_ne_nil hne, hsw]; rfl
          rw [hsw2]
          simp only [List.head?_cons, List.tail_cons] at h ⊢
          by_cases hd : d = ','
          · subst hd
            rw [if_pos rfl] at h ⊢
            cases hsw3 : skipWs ds with
            | nil =>
              rw [hsw3, pElems_nil] at h
              exact Option.noConfusion h
            | cons e es =>
              rw [hsw3] at h
              have hne3 : skipWs ds ≠ [] := by rw [hsw3]; simp
              have hsw4 : skipWs (ds ++ tail) = (e :: es) ++ tail := by
                rw [skipWs_append_of_ne_nil hne3, hsw3]
              rw [hsw4]
              cases hpe : pElems f (e :: es) with
              | none => rw [hpe] at h; exact Option.noConfusion h
              | some p2 =>
                obtain ⟨vs', r'⟩ := p2
                rw [hpe] at h
                simp only [Option.map_some', Option.some.injEq, Prod.mk.injEq] at h
                obtain ⟨hh1, hh2⟩ := h
                subst hh1; subst hh2
                rw [ihE (e :: es) vs' r' tail hws hpe]
                rfl
          · have hd' : ¬((some d : Option Char) = some ',') := by simp [hd]
            rw [if_neg hd'] at h ⊢
            by_cases he : d = ']'
            · subst he
              rw [if_pos rfl] at h ⊢
              simp only [Option.some.injEq, Prod.mk.injEq] at h ⊢
              exact ⟨h.1, by rw [← h.2]⟩
            · have he' : ¬((some d : Option Char) = some ']') := by simp [he]
              rw [if_neg he'] at h
              exact Option.noConfusion h
    · intro cs ms rest tail hws h
      cases cs with
      | nil => simp [pMembers] at h
      | cons c cs' =>
        simp only [pMembers, List.cons_append] at h ⊢
        by_cases hq : c = '"'
        · subst hq
          rw [if_pos rfl] at h ⊢
          cases hps : pStr cs' with
          | none => simp only [hps] at h; exact Option.noConfusion h
          | some p =>
            obtain ⟨k, r1⟩ := p
            simp only [hps] at h
            simp only [pStr_ext cs' k r1 tail hps]
            cases hsw : skipWs r1 with
            | nil => rw [hsw] at h; simp at h
            | cons d ds =>
              rw [hsw] at h
              have hne : skipWs r1 ≠ [] := by rw [hsw]; simp
              have hsw2 : skipWs (r1 ++ tail) = d :: (ds ++ tail) := by
                rw [skipWs_append_of_ne_nil hne, hsw]; rfl
              rw [hsw2]
              simp only [List.head?_cons, List.tail_cons] at h ⊢
              by_cases hd : d = ':'
              · subst hd
                rw [if_pos rfl] at h ⊢
                cases hsw3 : skipWs ds with
                | nil =>
                  rw [hsw3, pValue_nil] at h
                  exact Option.noConfusion h
                | cons e es =>
                  rw [hsw3] at h
                  have hne3 : skipWs ds ≠ [] := by rw [hsw3]; simp
                  have hsw4 : skipWs (ds ++ tail) = (e :: es) ++ tail := by
                    rw [skipWs_append_of_ne_nil hne3, hsw3]
                  rw [hsw4]
                  cases hpv : pValue f (e :: es) with
                  | none => simp only [hpv] at h; exact Option.noConfusion h
                  | some p2 =>
                    obtain ⟨v, r3⟩ := p2
                    simp only [hpv] at h
                    simp only [ihV (e :: es) v r3 tail hws hpv]
                    cases hsw5 : skipWs r3 with
                    | nil => rw [hsw5] at h; simp at h
                    | cons g gs =>
                      rw [hsw5] at h
                      have hne5 : skipWs r3 ≠ [] := by rw [hsw5]; simp
                      have hsw6 : skipWs (r3 ++ tail) = g :: (gs ++ tail) := by
                        rw [skipWs_append_of_ne_nil hne5, hsw5]; rfl
                      rw [hsw6]
                      simp only [List.head?_cons, List.tail_cons] at h ⊢
                      by_cases hg : g = ','
                      · subst hg
                        rw [if_pos rfl] at h ⊢
                        cases hsw7 : skipWs gs with
                        | nil =>
                          rw [hsw7, pMembers_nil] at h
                          exact Option.noConfusion h
                        | cons i is =>
                          rw [hsw7] at h
                          have hne7 : skipWs gs ≠ [] := by rw [hsw7]; simp
                          have hsw8 : skipWs (gs ++ tail) = (i :: is) ++ tail := by
                            rw [skipWs_append_of_ne_nil hne7, hsw7]
                          rw [hsw8]
                          cases hpm : pMembers f (i :: is) with
                          | none => rw [hpm] at h; exact Option.noConfusion h
                          | some p3 =>
                            obtain ⟨ms', r'⟩ := p3
                            rw [hpm] at h
                            simp only [Option.map_some', Option.some.injEq,
                              Prod.mk.injEq] at h
                            obtain ⟨hh1, hh2⟩ := h
                            subst hh1; subst hh2
                            rw [ihM (i :: is) ms' r' tail hws hpm]
                            rfl
                      · have hg' : ¬((some g : Option Char) = some ',') := by simp [hg]
                        rw [if_neg hg'] at h ⊢
                        by_cases hh : g = '}'
                        · subst hh
                          rw [if_pos rfl] at h ⊢
                          simp only [Option.some.injEq, Prod.mk.injEq] at h ⊢
                          exact ⟨h.1, by rw [← h.2]⟩
                        · have hh' : ¬((some g : Option Char) = some '}') := by simp [hh]
                          rw [if_neg hh'] at h
                          exact Option.noConfusion h
              · have hd' : ¬((some d : Option Char) = some ':') := by simp [hd]
                rw [if_neg hd'] at h
                exact Option.noConfusion h
        · rw [if_neg hq] at h
          exact Option.noConfusion h



theorem countNonWs_append_ws (l tail : List Char) (hws : WsOnly tail) :
    countNonWs (l ++ tail) = countNonWs l := by
  unfold countNonWs
  rw [List.filter_append]
  have hnil : tail.filter (fun c => !isJsonWs c) = [] := by
    rw [List.filter_eq_nil_iff]
    intro c hc
    simp [hws c hc]
  rw [hnil]
  simp

theorem skipWs_ws_start {pre l : List Char} (hpre : WsOnly pre) :
    skipWs (pre ++ l) = skipWs l := by
  have h0 : List.dropWhile isJsonWs pre = [] := skipWs_ws_nil hpre
  unfold skipWs
  rw [List.dropWhile_append, h0]
  simp

theorem jsonLoadsL_pad (pre suf J : List Char) (hpre : WsOnly pre) (hsuf : WsOnly suf)
    (v : JVal) (hok : jsonLoadsL J = some v) :
    jsonLoadsL (pre ++ (J ++ suf)) = some v := by
  simp only [jsonLoadsL] at hok ⊢
  rw [skipWs_ws_start hpre]
  cases hsw : skipWs J with
  | nil =>
    rw [hsw, pValue_nil] at hok
    exact Option.noConfusion hok
  | cons d ds =>
    have hne : skipWs J ≠ [] := by rw [hsw]; simp
    rw [skipWs_append_of_ne_nil hne, countNonWs_append_ws _ _ hsuf]
    cases hpv : pValue (countNonWs (skipWs J) + 1) (skipWs J) with
    | none => simp only [hpv] at hok; exact Option.noConfusion hok
    | some p =>
      obtain ⟨v0, rest⟩ := p
      simp only [hpv] at hok
      simp only [(pExt _).1 (skipWs J) v0 rest suf hsuf hpv]
      by_cases hr : skipWs rest = []
      · rw [if_pos hr] at hok
        rw [if_pos (skipWs_append_of_nil hsuf hr)]
        exact hok
      · rw [if_neg hr] at hok
        exact Option.noConfusion hok

theorem pyStripL_of_ends (a b : Char) (xs : List Char) (ha : isPyWs a = false)
    (hb : isPyWs b = false) :
    pyStripL (a :: (xs ++ [b])) = a :: (xs ++ [b]) := by
  unfold pyStripL
  rw [List.dropWhile_cons, ha]
  simp only [Bool.false_eq_true, if_false]
  rw [show (a :: (xs ++ [b])).reverse = b :: (xs.reverse ++ [a]) by simp]
  rw [List.dropWhile_cons, hb]
  simp



/-- Claim C6, corrected (fence stripping): only a fence whose opening
tag is exactly the seven characters of a backtick-backtick-backtick-json
marker is stripped; for such a wrapping of an already-stripped payload
`j` that decodes successfully (and does not itself carry fence markers),
parsing the wrapped text gives exactly the parse of `j`.  A bare fence
without the `json` language tag is not stripped (see the
counterexample). -/
theorem c6_fence_strip (j : String) (v : JVal)
    (hok : jsonLoads j = some v)
    (hstrip : pyStripL j.data = j.data)
    (hpre : "```json".data.isPrefixOf j.data = false)
    (hsuf : "```".data.isSuffixOf j.data = false) :
    parse_llm_response ("```json\n" ++ j ++ "\n```") = parse_llm_response j := by
  have hwsn : WsOnly ['\n'] := by
    intro c hc
    simp at hc
    subst hc
    rfl
  have hR : stripFences j.data = j.data := by
    simp only [stripFences]
    rw [hstrip, hpre]
    simp only [Bool.false_eq_true, if_false]
    rw [hsuf]
    simp
  have hdata : ("```json\n" ++ j ++ "\n```").data
      = "```json".data ++ ('\n' :: (j.data ++ ['\n', '`', '`', '`'])) := by
    rw [String.data_append, String.data_append]
    show ['`', '`', '`', 'j', 's', 'o', 'n', '\n'] ++ j.data ++ ['\n', '`', '`', '`'] = _
    simp
  have hL : stripFences (("```json\n" ++ j ++ "\n```").data)
      = '\n' :: (j.data ++ ['\n']) := by
    simp only [stripFences]
    have hstrip2 : pyStripL (("```json\n" ++ j ++ "\n```").data)
        = ("```json\n" ++ j ++ "\n```").data := by
      rw [hdata]
      have hsh : "```json".data ++ ('\n' :: (j.data ++ ['\n', '`', '`', '`']))
          = '`' :: ((['`', '`', 'j', 's', 'o', 'n', '\n'] ++ (j.data ++ ['\n', '`', '`'])) ++ ['`']) := by
        simp
      rw [hsh]
      rw [pyStripL_of_ends '`' '`' _ (by decide) (by decide)]
    rw [hstrip2, hdata]
    have hpre2 : "```json".data.isPrefixOf
        ("```json".data ++ ('\n' :: (j.data ++ ['\n', '`', '`', '`']))) = true := by
      rw [List.isPrefixOf_iff_prefix]
      exact List.prefix_append _ _
    rw [hpre2]
    simp only [if_true]
    rw [List.drop_left' (show ("```json".data).length = 7 from rfl)]
    have hsplit : '\n' :: (j.data ++ ['\n', '`', '`', '`'])
        = ('\n' :: (j.data ++ ['\n'])) ++ "```".data := by
      simp
    rw [hsplit]
    have hsuf2 : "```".data.isSuffixOf (('\n' :: (j.data ++ ['\n'])) ++ "```".data) = true := by
      rw [List.isSuffixOf_iff_suffix]
      exact List.suffix_append _ _
    rw [hsuf2]
    simp only [if_true]
    rw [List.take_left' (show ('\n' :: (j.data ++ ['\n'])).length
      = (('\n' :: (j.data ++ ['\n'])) ++ "```".data).length - 3 by simp)]
  have hok2 : jsonLoadsL ('\n' :: (j.data ++ ['\n'])) = some v := by
    have := jsonLoadsL_pad ['\n'] ['\n'] j.data hwsn hwsn v hok
    simpa using this
  have hok3 : jsonLoadsL j.data = some v := hok
  simp only [parse_llm_response, parseLLMResponseE]
  rw [hL, hR, hok2, hok3]


/-- Claim C6 witness: wrapping a concrete JSON object in a
backtick-backtick-backtick-json fence parses to the same result as the
bare object. -/
theorem c6_fence_strip_witness :
    parse_llm_response ("```json\n" ++ "\x7b\"match_score\": 85\x7d" ++ "\n```")
      = parse_llm_response "\x7b\"match_score\": 85\x7d" :=
  c6_fence_strip "\x7b\"match_score\": 85\x7d"
    (JVal.obj [("match_score", JVal.num 85)]) rfl rfl rfl rfl

/-- Claim C6 counterexample: a fence without a language tag is not
stripped, so the wrapped valid JSON object parses to the decode-failure
fallback (score 0) instead of the object's parse (score 85). -/
theorem c6_counterexample :
    (parse_llm_response "\x7b\"match_score\": 85\x7d").match_score = 85 ∧
    (parse_llm_response ("```" ++ "\n" ++ "\x7b\"match_score\": 85\x7d" ++ "\n" ++ "```")).match_score = 0 ∧
    parse_llm_response ("```" ++ "\n" ++ "\x7b\"match_score\": 85\x7d" ++ "\n" ++ "```")
      ≠ parse_llm_response "\x7b\"match_score\": 85\x7d" := by
  refine ⟨rfl, rfl, ?_⟩
  intro h
  have h2 := congrArg AnalysisResult.match_score h
  rw [show (parse_llm_response ("```" ++ "\n" ++ "\x7b\"match_score\": 85\x7d" ++ "\n" ++ "```")).match_score = 0 from rfl] at h2
  rw [show (parse_llm_response "\x7b\"match_score\": 85\x7d").match_score = 85 from rfl] at h2
  exact absurd h2 (by decide)

/-- Claim C5, corrected (parser fallback): when the fence-stripped input
fails JSON decoding, parse returns the fixed fallback with match score 0
and a non-empty placeholder string in every one of the five list fields,
and likewise (with the error fallback) when the decoded document is not
an object or its match score cannot be converted to an integer; but an
input that decodes to an object missing the expected fields — still not
of the expected shape — gets per-field defaults (empty lists, score 0,
empty summary) rather than placeholders (see the counterexample).  The
parse function is total: no input raises. -/
theorem c5_parser_fallback (s : String) :
    (jsonLoadsL (stripFences s.data) = none →
        parse_llm_response s = jsonFallbackResult) ∧
    (∀ kvs, jsonLoadsL (stripFences s.data) = some (JVal.obj kvs) →
        pyIntOf ((jget kvs "match_score").getD (JVal.num 0)) = none →
        parse_llm_response s = errorFallbackResult intErrMsg) ∧
    (∀ v, jsonLoadsL (stripFences s.data) = some v → (∀ kvs, v ≠ JVal.obj kvs) →
        parse_llm_response s = errorFallbackResult attrErrMsg) ∧
    jsonFallbackResult.match_score = 0 ∧
    (∀ m, (errorFallbackResult m).match_score = 0) ∧
    (NonemptyPlaceholder jsonFallbackResult.networking_strategy ∧
      NonemptyPlaceholder jsonFallbackResult.campus_resources ∧
      NonemptyPlaceholder jsonFallbackResult.application_timeline ∧
      NonemptyPlaceholder jsonFallbackResult.preparation_steps ∧
      NonemptyPlaceholder jsonFallbackResult.improvements) ∧
    (∀ m, NonemptyPlaceholder (errorFallbackResult m).networking_strategy ∧
      NonemptyPlaceholder (errorFallbackResult m).campus_resources ∧
      NonemptyPlaceholder (errorFallbackResult m).application_timeline ∧
      NonemptyPlaceholder (errorFallbackResult m).preparation_steps ∧
      NonemptyPlaceholder (errorFallbackResult m).improvements) := by
  refine ⟨?_, ?_, ?_, rfl, fun m => rfl, ?_, ?_⟩
  · intro hd
    simp [parse_llm_response, parseLLMResponseE, hd]
  · intro kvs hd hint
    simp [parse_llm_response, parseLLMResponseE, hd, hint]
  · intro v hd hno
    cases v with
    | obj kvs => exact absurd rfl (hno kvs)
    | null => simp [parse_llm_response, parseLLMResponseE, hd]
    | bool b => simp [parse_llm_response, parseLLMResponseE, hd]
    | num n => simp [parse_llm_response, parseLLMResponseE, hd]
    | str s2 => simp [parse_llm_response, parseLLMResponseE, hd]
    | arr xs => simp [parse_llm_response, parseLLMResponseE, hd]
  · exact ⟨⟨_, rfl, by decide⟩, ⟨_, rfl, by decide⟩, ⟨_, rfl, by decide⟩,
      ⟨_, rfl, by decide⟩, ⟨_, rfl, by decide⟩⟩
  · intro m
    exact ⟨⟨_, rfl, by decide⟩, ⟨_, rfl, by decide⟩, ⟨_, rfl, by decide⟩,
      ⟨_, rfl, by decide⟩, ⟨_, rfl, by decide⟩⟩

/-- Claim C5 witness: a non-JSON string hits the decode fallback; a
decoded non-object and a non-convertible match score hit the error
fallback. -/
theorem c5_parser_fallback_witness :
    parse_llm_response "hello" = jsonFallbackResult ∧
    parse_llm_response "[1]" = errorFallbackResult attrErrMsg ∧
    parse_llm_response "\x7b\"match_score\": null\x7d" = errorFallbackResult intErrMsg := by
  refine ⟨(c5_parser_fallback "hello").1 rfl, ?_, ?_⟩
  · exact (c5_parser_fallback "[1]").2.2.1 (JVal.arr [JVal.num 1]) rfl
      (fun kvs h => JVal.noConfusion h)
  · exact (c5_parser_fallback "\x7b\"match_score\": null\x7d").2.1
      [("match_score", JVal.null)] rfl rfl

/-- Claim C5 counterexample: the empty JSON object decodes successfully
but is not of the expected shape (it has none of the five list fields),
yet parse returns empty-list defaults with no placeholder text in the
list fields, contradicting the claim that every non-expected-shape input
yields non-empty placeholders in all five list fields. -/
theorem c5_counterexample :
    jsonLoads "\x7b\x7d" = some (JVal.obj []) ∧
    parse_llm_response "\x7b\x7d"
      = ⟨JVal.arr [], JVal.arr [], JVal.arr [], JVal.arr [], JVal.arr [], 0, JVal.str ""⟩ ∧
    ¬ NonemptyPlaceholder (parse_llm_response "\x7b\x7d").networking_strategy := by
  refine ⟨rfl, rfl, ?_⟩
  intro ⟨p, hp, hne⟩
  rw [show (parse_llm_response "\x7b\x7d").networking_strategy = JVal.arr [] from rfl] at hp
  simp [strList] at hp

/-! ## Lemmas about the stable descending sort and Python max -/

theorem insertDescBy_perm {α : Type} (key : α → Int) (x : α) (l : List α) :
    List.Perm (insertDescBy key x l) (x :: l) := by
  induction l with
  | nil => exact List.Perm.refl _
  | cons y ys ih =>
    by_cases h : key y ≤ key x
    · simp [insertDescBy, h]
    · simp only [insertDescBy, if_neg h]
      exact (ih.cons y).trans (List.Perm.swap x y ys)

theorem sortDescBy_perm {α : Type} (key : α → Int) (l : List α) :
    List.Perm (sortDescBy key l) l := by
  induction l with
  | nil => exact List.Perm.refl _
  | cons x xs ih => exact (insertDescBy_perm key x _).trans (ih.cons x)

theorem insertDescBy_pairwise {α : Type} (key : α → Int) (x : α) {l : List α}
    (h : List.Pairwise (fun a b => key b ≤ key a) l) :
    List.Pairwise (fun a b => key b ≤ key a) (insertDescBy key x l) := by
  induction l with
  | nil => simp [insertDescBy]
  | cons y ys ih =>
    obtain ⟨hy, hys⟩ := List.pairwise_cons.mp h
    by_cases hk : key y ≤ key x
    · simp only [insertDescBy, if_pos hk]
      refine List.pairwise_cons.mpr ⟨?_, h⟩
      intro z hz
      rcases List.mem_cons.mp hz with rfl | hz2
      · exact hk
      · exact le_trans (hy z hz2) hk
    · simp only [insertDescBy, if_neg hk]
      refine List.pairwise_cons.mpr ⟨?_, ih hys⟩
      intro z hz
      have hz3 := (insertDescBy_perm key x ys).mem_iff.mp hz
      rcases List.mem_cons.mp hz3 with rfl | hz2
      · omega
      · exact hy z hz2

theorem sortDescBy_pairwise {α : Type} (key : α → Int) (l : List α) :
    List.Pairwise (fun a b => key b ≤ key a) (sortDescBy key l) := by
  induction l with
  | nil => simp [sortDescBy]
  | cons x xs ih => exact insertDescBy_pairwise key x ih

theorem filter_insertDescBy {α : Type} (key : α → Int) (x : α) (l : List α) (q : Int) :
    (insertDescBy key x l).filter (fun a => decide (key a = q))
      = if key x = q then x :: l.filter (fun a => decide (key a = q))
        else l.filter (fun a => decide (key a = q)) := by
  induction l with
  | nil => by_cases hx : key x = q <;> simp [insertDescBy, hx]
  | cons y ys ih =>
    by_cases hk : key y ≤ key x
    · simp only [insertDescBy, if_pos hk]
      by_cases hx : key x = q
      · simp [List.filter_cons, hx]
      · simp [List.filter_cons, hx]
    · simp only [insertDescBy, if_neg hk]
      rw [List.filter_cons, ih]
      by_cases hx : key x = q
      · have hy : ¬(key y = q) := by omega
        simp [hx, hy, List.filter_cons]
      · by_cases hy : key y = q <;> simp [hx, hy, List.filter_cons]

theorem filter_sortDescBy {α : Type} (key : α → Int) (l : List α) (q : Int) :
    (sortDescBy key l).filter (fun a => decide (key a = q))
      = l.filter (fun a => decide (key a = q)) := by
  induction l with
  | nil => rfl
  | cons x xs ih =>
    show (insertDescBy key x (sortDescBy key xs)).filter _ = _
    rw [filter_insertDescBy]
    by_cases hx : key x = q <;> simp [hx, List.filter_cons, ih]

theorem pyMaxBy_le {α : Type} (key : α → Int) (a : α) (l : List α) :
    key a ≤ key (pyMaxBy key a l) := by
  induction l generalizing a with
  | nil => exact le_refl _
  | cons x xs ih =>
    rw [pyMaxBy]
    by_cases h : key a < key x
    · rw [if_pos h]
      exact le_trans (le_of_lt h) (ih x)
    · rw [if_neg h]
      exact ih a

theorem pyMaxBy_split {α : Type} (key : α → Int) (a : α) (l : List α) :
    ∃ l₁ l₂, a :: l = l₁ ++ pyMaxBy key a l :: l₂ ∧
      (∀ y ∈ l₁, key y < key (pyMaxBy key a l)) ∧
      (∀ y ∈ l₂, key y ≤ key (pyMaxBy key a l)) := by
  induction l generalizing a with
  | nil => exact ⟨[], [], rfl, by simp, by simp⟩
  | cons x xs ih =>
    by_cases h : key a < key x
    · have hm : pyMaxBy key a (x :: xs) = pyMaxBy key x xs := by
        rw [pyMaxBy, if_pos h]
      obtain ⟨l₁, l₂, heq, h1, h2⟩ := ih x
      refine ⟨a :: l₁, l₂, ?_, ?_, ?_⟩
      · rw [hm, List.cons_append, ← heq]
      · intro y hy
        rcases List.mem_cons.mp hy with rfl | hy2
        · rw [hm]; exact lt_of_lt_of_le h (pyMaxBy_le key x xs)
        · rw [hm]; exact h1 y hy2
      · intro y hy
        rw [hm]; exact h2 y hy
    · have hm : pyMaxBy key a (x :: xs) = pyMaxBy key a xs := by
        rw [pyMaxBy, if_neg h]
      obtain ⟨l₁, l₂, heq, h1, h2⟩ := ih a
      cases l₁ with
      | nil =>
        simp only [List.nil_append] at heq
        injection heq with ha hxs
        refine ⟨[], x :: xs, ?_, by simp, ?_⟩
        · rw [hm, ← ha]
          rfl
        · intro y hy
          rw [hm]
          rcases List.mem_cons.mp hy with rfl | hy2
          · exact le_trans (le_of_not_lt h) (pyMaxBy_le key a xs)
          · rw [hxs] at hy2
            exact h2 y hy2
      | cons b l₁' =>
        rw [List.cons_append] at heq
        injection heq with ha hxs
        refine ⟨a :: x :: l₁', l₂, ?_, ?_, ?_⟩
        · rw [hm, List.cons_append, List.cons_append, ← hxs]
        · intro z hz
          rw [hm]
          have hamem : a ∈ b :: l₁' := by
            rw [ha]
            exact List.mem_cons_self _ _
          rcases List.mem_cons.mp hz with rfl | hz2
          · exact h1 z hamem
          · rcases List.mem_cons.mp hz2 with rfl | hz3
            · exact lt_of_le_of_lt (le_of_not_lt h) (h1 a hamem)
            · exact h1 z (List.mem_cons_of_mem _ hz3)
        · intro z hz
          rw [hm]; exact h2 z hz

theorem foldl_maxts_seed_le (m : Int) (l : List AnalysisDoc) :
    m ≤ l.foldl (fun m d => max m d.analysis_timestamp) m := by
  induction l generalizing m with
  | nil => exact le_refl _
  | cons x xs ih =>
    exact le_trans (le_max_left m x.analysis_timestamp) (ih _)

theorem foldl_maxts_mem_le (m : Int) (l : List AnalysisDoc) :
    ∀ d ∈ l, d.analysis_timestamp ≤ l.foldl (fun m d => max m d.analysis_timestamp) m := by
  induction l generalizing m with
  | nil => intro d hd; exact absurd hd (List.not_mem_nil d)
  | cons x xs ih =>
    intro d hd
    rcases List.mem_cons.mp hd with rfl | hd2
    · exact le_trans (le_max_right m d.analysis_timestamp) (foldl_maxts_seed_le _ xs)
    · exact ih _ d hd2

theorem foldl_maxts_attained (m : Int) (l : List AnalysisDoc) :
    l.foldl (fun m d => max m d.analysis_timestamp) m = m
      ∨ ∃ d ∈ l, l.foldl (fun m d => max m d.analysis_timestamp) m = d.analysis_timestamp := by
  induction l generalizing m with
  | nil => exact Or.inl rfl
  | cons x xs ih =>
    rcases ih (max m x.analysis_timestamp) with hseed | ⟨d, hd, hval⟩
    · rcases max_choice m x.analysis_timestamp with hmax | hmax
      · left
        simpa [hmax] using hseed
      · right
        exact ⟨x, by simp, by simpa [hmax] using hseed⟩
    · right
      exact ⟨d, by simp [hd], hval⟩

/-- Claim C7 (ranking of batch results): the analyses list returned by
`analyze_resume_for_multiple_clubs` is a permutation of the successes
the sequential loop collected, its scores are weakly descending, it is
stable (filtering at any fixed score yields exactly the first-seen
subsequence of the collected successes), the count and top match come
from the same list, the average is the mean score over successes only,
and the spec's concrete example [70, 95, 95, 40] comes back ordered
[95, 95, 70, 40] with the two 95s (clubs B then C) in original relative
order. -/
theorem c7_ranking (oracle : Nat → World) (now : Int) (db : List AnalysisDoc)
    (rid rtext : String) (clubs : List (List (String × String))) (force : Bool) :
    ((analyzeResumeForMultipleClubs oracle now db rid rtext clubs force).analyses.Perm
        (analyzeManyResults oracle now db rid rtext clubs force) ∧
      List.Pairwise (fun a b => scoreOf b ≤ scoreOf a)
        (analyzeResumeForMultipleClubs oracle now db rid rtext clubs force).analyses ∧
      (∀ q : Int,
        (analyzeResumeForMultipleClubs oracle now db rid rtext clubs force).analyses.filter
            (fun p => decide (scoreOf p = q))
          = (analyzeManyResults oracle now db rid rtext clubs force).filter
            (fun p => decide (scoreOf p = q))) ∧
      (analyzeResumeForMultipleClubs oracle now db rid rtext clubs force).total_analyzed
          = (analyzeManyResults oracle now db rid rtext clubs force).length ∧
      (analyzeResumeForMultipleClubs oracle now db rid rtext clubs force).top_match
          = (analyzeResumeForMultipleClubs oracle now db rid rtext clubs force).analyses.head? ∧
      (analyzeResumeForMultipleClubs oracle now db rid rtext clubs force).average_score
          = (if (analyzeManyResults oracle now db rid rtext clubs force).length = 0 then 0
             else ((analyzeManyResults oracle now db rid rtext clubs force).map
                   (fun p => (p.2.match_score : ℚ))).sum
               / ((analyzeManyResults oracle now db rid rtext clubs force).length : ℚ))) ∧
    (analyzeResumeForMultipleClubs c7Oracle 0 [] "r1" "resume" c7Clubs false).analyses.map
        (fun p => (p.1, p.2.match_score))
      = [("B", 95), ("C", 95), ("A", 70), ("D", 40)] := by
  refine ⟨?_, rfl⟩
  cases hR : analyzeManyResults oracle now db rid rtext clubs force with
  | nil =>
    have hR1 : (analyzeManyAux oracle now rid rtext force 0 db clubs).1 = [] := hR
    have hM : analyzeResumeForMultipleClubs oracle now db rid rtext clubs force
        = ⟨[], none, 0, 0, (analyzeManyAux oracle now rid rtext force 0 db clubs).2.1,
           (analyzeManyAux oracle now rid rtext force 0 db clubs).2.2.1,
           (analyzeManyAux oracle now rid rtext force 0 db clubs).2.2.2⟩ := by
      simp only [analyzeResumeForMultipleClubs, hR1]
    rw [hM]
    exact ⟨List.Perm.refl _, by simp, fun q => rfl, rfl, rfl, by simp⟩
  | cons a l =>
    have hR1 : (analyzeManyAux oracle now rid rtext force 0 db clubs).1 = a :: l := hR
    have hM : analyzeResumeForMultipleClubs oracle now db rid rtext clubs force
        = ⟨sortDescBy scoreOf (a :: l), (sortDescBy scoreOf (a :: l)).head?,
           ((a :: l).map (fun p => (p.2.match_score : ℚ))).sum / ((a :: l).length : ℚ),
           (a :: l).length,
           (analyzeManyAux oracle now rid rtext force 0 db clubs).2.1,
           (analyzeManyAux oracle now rid rtext force 0 db clubs).2.2.1,
           (analyzeManyAux oracle now rid rtext force 0 db clubs).2.2.2⟩ := by
      simp only [analyzeResumeForMultipleClubs, hR1]
    rw [hM]
    refine ⟨sortDescBy_perm scoreOf (a :: l), sortDescBy_pairwise scoreOf (a :: l),
      fun q => filter_sortDescBy scoreOf (a :: l) q, rfl, rfl, ?_⟩
    rw [if_neg (by simp)]

/-! ## Summary lemmas and claim C9 -/

/-- Claim C9, corrected (per-resume summary): for a resume with at least
one persisted record the summary holds all five keys, where count is the
number of persisted records for that resume (full history), the average
is the mean of their match scores, top_club/top_score come from the
single record with the maximum score with ties resolved to the record
first encountered in the order the store returns (newest first), and
last_updated is the most recent timestamp; but for a resume with zero
records the returned dictionary has only the keys count (0),
average_score (0) and top_club (None) — top_score and last_updated are
absent, contradicting the claim's zero-record clause (see the
counterexample). -/
theorem c9_resume_summary (db : List AnalysisDoc) (rid : String) :
    (getAnalysesForResume false db rid = [] →
        getResumeAnalysisSummary false db rid
          = [("count", SVal.int 0), ("average_score", SVal.int 0), ("top_club", SVal.null)]) ∧
    (∀ a rest, getAnalysesForResume false db rid = a :: rest →
      ((getResumeAnalysisSummary false db rid).lookup "count"
          = some (SVal.int ((db.filter (fun d => d.resume_id == rid)).length : Int)) ∧
       (getResumeAnalysisSummary false db rid).lookup "average_score"
          = some (SVal.rat
              (((((db.filter (fun d => d.resume_id == rid)).map
                  (fun d => d.match_score)).sum : Int) : ℚ)
                / (((db.filter (fun d => d.resume_id == rid)).length : ℚ)))) ∧
       (∃ l₁ l₂ t, a :: rest = l₁ ++ t :: l₂ ∧
          (getResumeAnalysisSummary false db rid).lookup "top_club"
              = some (SVal.str t.club_name) ∧
          (getResumeAnalysisSummary false db rid).lookup "top_score"
              = some (SVal.int t.match_score) ∧
          (∀ y ∈ l₁, y.match_score < t.match_score) ∧
          (∀ y ∈ l₂, y.match_score ≤ t.match_score)) ∧
       (getResumeAnalysisSummary false db rid).lookup "last_updated"
          = some (SVal.int (listMaxTs a rest)) ∧
       (∃ d ∈ db.filter (fun d => d.resume_id == rid),
          d.analysis_timestamp = listMaxTs a rest) ∧
       (∀ d ∈ db.filter (fun d => d.resume_id == rid),
          d.analysis_timestamp ≤ listMaxTs a rest))) := by
  constructor
  · intro h
    simp [getResumeAnalysisSummary, h]
  · intro a rest h
    have hperm : (a :: rest).Perm (db.filter (fun d => d.resume_id == rid)) := by
      have hgod : getAnalysesForResume false db rid
          = sortDescBy (fun d => d.analysis_timestamp)
              (db.filter (fun d => d.resume_id == rid)) := by
        simp [getAnalysesForResume]
      rw [hgod] at h
      rw [← h]
      exact sortDescBy_perm _ _
    have hs : getResumeAnalysisSummary false db rid
        = [("count", SVal.int (((a :: rest).length : Nat) : Int)),
           ("average_score", SVal.rat
             (((((a :: rest).map (fun d => d.match_score)).sum : Int) : ℚ)
               / (((a :: rest).map (fun d => d.match_score)).length : ℚ))),
           ("top_club", SVal.str (pyMaxBy (fun d => d.match_score) a rest).club_name),
           ("top_score", SVal.int (pyMaxBy (fun d => d.match_score) a rest).match_score),
           ("last_updated", SVal.int (listMaxTs a rest))] := by
      simp only [getResumeAnalysisSummary, h]
    refine ⟨?_, ?_, ?_, ?_, ?_, ?_⟩
    · rw [hs]
      simp [hperm.length_eq]
    · rw [hs]
      have hsum : ((a :: rest).map (fun d => d.match_score)).sum
          = ((db.filter (fun d => d.resume_id == rid)).map (fun d => d.match_score)).sum :=
        (hperm.map (fun d => d.match_score)).sum_eq
      have hlen : ((a :: rest).map (fun d => d.match_score)).length
          = (db.filter (fun d => d.resume_id == rid)).length := by
        rw [List.length_map]
        exact hperm.length_eq
      rw [List.lookup]
      simp only [hsum, hlen]
      rfl
    · obtain ⟨l₁, l₂, heq, h1, h2⟩ := pyMaxBy_split (fun d => d.match_score) a rest
      exact ⟨l₁, l₂, _, heq, by rw [hs]; rfl, by rw [hs]; rfl, h1, h2⟩
    · rw [hs]
      rfl
    · have := foldl_maxts_attained a.analysis_timestamp rest
      unfold listMaxTs
      rcases this with hseed | ⟨d, hd, hval⟩
      · exact ⟨a, hperm.mem_iff.mp (by simp), hseed.symm⟩
      · exact ⟨d, hperm.mem_iff.mp (by simp [hd]), hval.symm⟩
    · intro d hd
      have hd2 := hperm.mem_iff.mpr hd
      rcases List.mem_cons.mp hd2 with rfl | hd3
      · exact foldl_maxts_seed_le _ _
      · exact foldl_maxts_mem_le _ _ d hd3

/-- Claim C9 counterexample: for a resume with zero records the summary
dictionary lacks the top_score and last_updated keys entirely. -/
theorem c9_counterexample :
    (getResumeAnalysisSummary false [] "r1").lookup "top_score" = none ∧
    (getResumeAnalysisSummary false [] "r1").lookup "last_updated" = none ∧
    (getResumeAnalysisSummary false [] "r1").lookup "count" = some (SVal.int 0) ∧
    (getResumeAnalysisSummary false [] "r1").lookup "top_club" = some SVal.null :=
  ⟨rfl, rfl, rfl, rfl⟩

/-- Claim C9 witness: a two-record resume summary at concrete data. -/
theorem c9_resume_summary_witness :
    (getResumeAnalysisSummary false
        [mkDoc "r1" "A" 10 ⟨JVal.arr [], JVal.arr [], JVal.arr [], JVal.arr [],
            JVal.arr [], 50, JVal.str ""⟩,
         mkDoc "r1" "B" 30 ⟨JVal.arr [], JVal.arr [], JVal.arr [], JVal.arr [],
            JVal.arr [], 90, JVal.str ""⟩,
         mkDoc "r2" "C" 20 ⟨JVal.arr [], JVal.arr [], JVal.arr [], JVal.arr [],
            JVal.arr [], 70, JVal.str ""⟩] "r1").lookup "count" = some (SVal.int 2) ∧
    (getResumeAnalysisSummary false
        [mkDoc "r1" "A" 10 ⟨JVal.arr [], JVal.arr [], JVal.arr [], JVal.arr [],
            JVal.arr [], 50, JVal.str ""⟩,
         mkDoc "r1" "B" 30 ⟨JVal.arr [], JVal.arr [], JVal.arr [], JVal.arr [],
            JVal.arr [], 90, JVal.str ""⟩,
         mkDoc "r2" "C" 20 ⟨JVal.arr [], JVal.arr [], JVal.arr [], JVal.arr [],
            JVal.arr [], 70, JVal.str ""⟩] "r1").lookup "last_updated"
      = some (SVal.int 30) := by
  have h := (c9_resume_summary
    [mkDoc "r1" "A" 10 ⟨JVal.arr [], JVal.arr [], JVal.arr [], JVal.arr [],
        JVal.arr [], 50, JVal.str ""⟩,
     mkDoc "r1" "B" 30 ⟨JVal.arr [], JVal.arr [], JVal.arr [], JVal.arr [],
        JVal.arr [], 90, JVal.str ""⟩,
     mkDoc "r2" "C" 20 ⟨JVal.arr [], JVal.arr [], JVal.arr [], JVal.arr [],
        JVal.arr [], 70, JVal.str ""⟩] "r1").2
    (mkDoc "r1" "B" 30 ⟨JVal.arr [], JVal.arr [], JVal.arr [], JVal.arr [],
        JVal.arr [], 90, JVal.str ""⟩)
    [mkDoc "r1" "A" 10 ⟨JVal.arr [], JVal.arr [], JVal.arr [], JVal.arr [],
        JVal.arr [], 50, JVal.str ""⟩] rfl
  exact ⟨h.1, h.2.2.2.1⟩

end ClubApp
